import Mathlib

/-!
# KSeExpr curve editor: the scalar `CurveScene` of `KSeExprUI/ExprCurve.cpp`

A shallow embedding of the editing engine behind the ramp widget.

* C++ `double` is modelled by `ℚ`: the scene only compares, assigns and divides
  coordinates, which is exact on the rationals.  IEEE special values (NaN,
  infinities, the result of dividing by a zero width) are outside the model.
* `std::vector<T_CURVE::CV>` is a `List CV`; `int` indices are `Int`.
* Unchecked vector accesses (`_cvs[i]`, `_cvs.erase(_cvs.begin() + i)`) have no
  defined behaviour outside `0 <= i < size`; an operation that performs one
  returns `none` there and `some` of the next scene otherwise.
* Qt signals are recorded in an emission log together with what a directly
  connected slot can read from the scene at that moment.
* `KSeExpr/Curve.h` is not among the sources: the derived curve, its sorting and
  its evaluation (`getValue`) follow the specification, with a zero-length
  segment given chord slope `0`.
* `CurveControl` of `ExprControl.cpp` is the scalar curve control; its
  `controlChanged` signal is not recorded.
* `drawRect` and `drawPoly` only repaint graphics items and touch none of the
  modelled fields; `drawPoints` is kept because the number of circle items feeds
  back into hit testing.
-/

namespace KSeExpr

/-- Modelled from the spec: `Curve<T>::InterpType` of `KSeExpr/Curve.h` (absent),
"one of None, Linear, Smooth, Spline, MonotoneSpline"; the order is the one of the
combo box filled in the `ExprCurve` constructor. -/
inductive InterpType where
  | kNone
  | kLinear
  | kSmooth
  | kSpline
  | kMonotoneSpline
deriving DecidableEq, Repr

/-- Modelled from the spec: `Curve<double>::CV` of `KSeExpr/Curve.h` (absent), a
control vertex "position, value, interp", built by `CV(pos, val, interp)`. -/
structure CV where
  _pos : ℚ
  _val : ℚ
  _interp : InterpType
deriving DecidableEq, Repr

/-- Modelled from the spec: `KSeExpr::clamp` of `KSeExpr/ExprBuiltins.h` (absent),
which clamps `x` into `[lo, hi]`. -/
def clamp (x lo hi : ℚ) : ℚ :=
  if x < lo then lo else if x > hi then hi else x

/-- Modelled from the spec: the derived evaluation structure `Curve<double>` of
`KSeExpr/Curve.h` (absent): the control vertices it was given, which
`preparePoints` keeps sorted by position. -/
structure Curve where
  _cvData : List CV
deriving DecidableEq, Repr

namespace Curve

/-- Modelled from the spec: `new T_CURVE`, a curve with no control vertex. -/
def empty : Curve := ⟨[]⟩

/-- Modelled from the spec: `Curve::addPoint(position, val, type)` appends one
control vertex to the curve under construction. -/
def addPoint (c : Curve) (position val : ℚ) (type : InterpType) : Curve :=
  ⟨c._cvData ++ [⟨position, val, type⟩]⟩

/-- Modelled from the spec: `Curve::preparePoints()`, "sort a copy of CVs by
position (stable)": ascending position, ties in insertion order. -/
def preparePoints (c : Curve) : Curve :=
  ⟨c._cvData.insertionSort (fun a b => a._pos ≤ b._pos)⟩

/-- Modelled from the spec: `Curve::getLowerBoundCV(x)._interp`, "the
interpolation mode associated with the CV whose sorted position is the greatest
position ≤ x, or None if x precedes all CVs". -/
def lowerBoundInterp (c : Curve) (x : ℚ) : InterpType :=
  match (c._cvData.filter (fun cv => cv._pos ≤ x)).getLast? with
  | some cv => cv._interp
  | none => InterpType.kNone

/-- Modelled from the spec: the slope of the chord from the sorted CV `i` to the
sorted CV `i + 1` ("consecutive pair"); `none` when there is no such pair. -/
def secantSlope (all : List CV) (i : Nat) : Option ℚ :=
  match all[i]?, all[i + 1]? with
  | some a, some b => some ((b._val - a._val) / (b._pos - a._pos))
  | _, _ => none

/-- Modelled from the spec: the chord ending at the sorted CV `i`. -/
def leftSecant (all : List CV) (i : Nat) : Option ℚ :=
  if i = 0 then none else secantSlope all (i - 1)

/-- Modelled from the spec: "tangents chosen (Fritsch-Carlson style)": a tangent
`d` is limited against the chord slope `delta` of an adjacent segment so that
`d / delta` lies in `[0, 3]`; it is `0` on a flat segment. -/
def limitSlope (d : ℚ) : Option ℚ → ℚ
  | none => d
  | some delta => if delta = 0 then 0 else clamp (d / delta) 0 3 * delta

/-- Modelled from the spec: the unlimited tangent at the sorted CV `i`, the mean
of the two adjacent chord slopes (the only one at an end CV). -/
def chordMeanSlope (all : List CV) (i : Nat) : ℚ :=
  match leftSecant all i, secantSlope all i with
  | some l, some r => (l + r) / 2
  | some l, none => l
  | none, some r => r
  | none, none => 0

/-- Modelled from the spec: the `MonotoneSpline` tangent at the sorted CV `i`,
"chosen (Fritsch-Carlson style) so the interpolant never overshoots": the chord
mean limited against the segment on its left and the segment on its right. -/
def monotoneSlope (all : List CV) (i : Nat) : ℚ :=
  limitSlope (limitSlope (chordMeanSlope all i) (leftSecant all i)) (secantSlope all i)

/-- Modelled from the spec: reciprocal length of the segment from the sorted CV
`i` to the sorted CV `i + 1`; `0` when there is no such segment. -/
def gapInv (all : List CV) (i : Nat) : ℚ :=
  match all[i]?, all[i + 1]? with
  | some a, some b => 1 / (b._pos - a._pos)
  | _, _ => 0

/-- Modelled from the spec: row `i` (sub-diagonal, diagonal, super-diagonal,
right-hand side) of the tridiagonal system for the tangents of the "global cubic
spline through all CVs (natural boundary conditions)". -/
def splineRow (all : List CV) (i : Nat) : ℚ × ℚ × ℚ × ℚ :=
  let a := if i = 0 then 0 else gapInv all (i - 1)
  let c := gapInv all i
  (a, 2 * (a + c), c,
    3 * (a * (leftSecant all i).getD 0 + c * (secantSlope all i).getD 0))

/-- Modelled from the spec: forward elimination of the tridiagonal system. -/
def sweepForward : ℚ → ℚ → List (ℚ × ℚ × ℚ × ℚ) → List (ℚ × ℚ)
  | _, _, [] => []
  | cp, dp, (a, b, c, d) :: rows =>
    (c / (b - a * cp), (d - a * dp) / (b - a * cp))
      :: sweepForward (c / (b - a * cp)) ((d - a * dp) / (b - a * cp)) rows

/-- Modelled from the spec: back substitution of the tridiagonal system. -/
def sweepBack : List (ℚ × ℚ) → List ℚ
  | [] => []
  | (cp, dp) :: rest => (dp - cp * (sweepBack rest).headD 0) :: sweepBack rest

/-- Modelled from the spec: the `Spline` tangent at the sorted CV `i`, the
derivative there of the natural cubic spline through all CVs. -/
def splineSlope (all : List CV) (i : Nat) : ℚ :=
  (sweepBack (sweepForward 0 0 ((List.range all.length).map (splineRow all)))).getD i 0

/-- Modelled from the spec: the cubic Hermite segment from `(t0, y0)` with
tangent `m0` to `(t1, y1)` with tangent `m1`, sampled at `x`. -/
def hermite (t0 t1 y0 y1 m0 m1 x : ℚ) : ℚ :=
  let h := t1 - t0
  let u := (x - t0) / h
  y0 + (y1 - y0) * (u * u * (3 - 2 * u)) + h * m0 * (u * (1 - u) * (1 - u))
    - h * m1 * (u * u * (1 - u))

/-- Modelled from the spec: the value at `x` on the segment from the sorted CV
`k0` (number `i`) to the next one `k1`; "the segment evaluation rule is
determined by the right CV's interp tag". -/
def segment (all : List CV) (i : Nat) (k0 k1 : CV) (x : ℚ) : ℚ :=
  match k1._interp with
  | InterpType.kNone => k0._val
  | InterpType.kLinear =>
    k0._val + (x - k0._pos) / (k1._pos - k0._pos) * (k1._val - k0._val)
  | InterpType.kSmooth => hermite k0._pos k1._pos k0._val k1._val 0 0 x
  | InterpType.kSpline =>
    hermite k0._pos k1._pos k0._val k1._val (splineSlope all i) (splineSlope all (i + 1)) x
  | InterpType.kMonotoneSpline =>
    hermite k0._pos k1._pos k0._val k1._val (monotoneSlope all i) (monotoneSlope all (i + 1)) x

/-- Modelled from the spec: evaluation at `x` from the sorted CV number `i` on,
for `x` not before that CV: the segment whose right CV is the first one beyond
`x`, and the last CV's value once no CV lies beyond `x`. -/
def evalFrom (all : List CV) : Nat → List CV → ℚ → ℚ
  | _, [], _ => 0
  | _, [k], _ => k._val
  | i, k0 :: k1 :: rest, x =>
    if x < k1._pos then segment all i k0 k1 x else evalFrom all (i + 1) (k1 :: rest) x

/-- Modelled from the spec: `Curve::getValue(x)`, the spec's `evaluate`: the
type default `0` without CVs, the first CV's value before it ("flat
extrapolation"), otherwise the segment rule. -/
def getValue (c : Curve) (x : ℚ) : ℚ :=
  match c._cvData with
  | [] => 0
  | k0 :: rest => if x < k0._pos then k0._val else evalFrom c._cvData 0 (k0 :: rest) x

end Curve

/-- Signals of `CurveScene`. -/
inductive Signal where
  | cvSelected (pos val : ℚ) (interp : InterpType)
  | curveChanged
deriving DecidableEq, Repr

/-- One emitted signal, with the control vertices and the derived curve a
directly connected slot reads from the scene while the signal is delivered. -/
structure Emitted where
  signal : Signal
  cvs : List CV
  curve : Curve
deriving DecidableEq, Repr

/-- State of `CurveScene`: its data members, the number of circle items
(`_circleObjects.size()`) and the log of emitted signals. -/
structure CurveScene where
  _cvs : List CV
  _curve : Curve
  _width : Int
  _height : Int
  _interp : InterpType
  _selectedItem : Int
  _lmb : Bool
  _circleObjects : Nat
  emitted : List Emitted
deriving DecidableEq, Repr

/-- Modelled from the spec: the default of the `select` parameter of
`CurveScene::addPoint`, declared in `ExprCurve.h` (absent); creating a point by
click "delegates to `addPoint(..., select=true)`". -/
def addPointSelectDefault : Bool := true

/-- Unchecked `_cvs.erase(_cvs.begin() + index)`. -/
def eraseAt (cvs : List CV) (index : Int) : Option (List CV) :=
  if 0 ≤ index ∧ index < cvs.length then some (cvs.eraseIdx index.toNat) else none

/-- Unchecked read `_cvs[i]`. -/
def readAt (cvs : List CV) (i : Int) : Option CV :=
  if 0 ≤ i ∧ i < cvs.length then cvs[i.toNat]? else none

/-- Unchecked in-place write through `_cvs[i]`: the element read at `i` is
replaced by its update. -/
def writeAt (cvs : List CV) (i : Int) (f : CV → CV) : Option (List CV) :=
  (readAt cvs i).map (fun cv => cvs.set i.toNat (f cv))

/-- The curve `rebuildCurve` constructs from a control-vertex list: a fresh
curve, one `addPoint` per stored CV in stored order, then `preparePoints`. -/
def buildCurve (cvs : List CV) : Curve :=
  (cvs.foldl (fun c cv => c.addPoint cv._pos cv._val cv._interp) Curve.empty).preparePoints

namespace CurveScene

/-- `emit sig`. -/
def emit (s : CurveScene) (sig : Signal) : CurveScene :=
  { s with emitted := s.emitted ++ [⟨sig, s._cvs, s._curve⟩] }

/-- `CurveScene::removeAll`. -/
def removeAll (s : CurveScene) : CurveScene :=
  { s with _cvs := [] }

/-- `CurveScene::rebuildCurve`. -/
def rebuildCurve (s : CurveScene) : CurveScene :=
  { s with _curve := buildCurve s._cvs }

/-- `CurveScene::drawPoints`: one circle item per stored CV. -/
def drawPoints (s : CurveScene) : CurveScene :=
  { s with _circleObjects := s._cvs.length }

/-- `CurveScene::drawPoly`: repaints the polygon only. -/
def drawPoly (s : CurveScene) : CurveScene := s

/-- `CurveScene::drawRect`: repaints the outline only. -/
def drawRect (s : CurveScene) : CurveScene := s

/-- `CurveScene::resize`. -/
def resize (s : CurveScene) (width height : Int) : CurveScene :=
  drawPoints (drawPoly (drawRect { s with _width := width - 16, _height := height - 16 }))

/-- `CurveScene::CurveScene`. -/
def new : CurveScene :=
  resize (rebuildCurve
    { _cvs := [], _curve := Curve.empty, _width := 320, _height := 50,
      _interp := InterpType.kMonotoneSpline, _selectedItem := -1, _lmb := false,
      _circleObjects := 0, emitted := [] }) 320 50

/-- `CurveScene::emitCurveChanged`. -/
def emitCurveChanged (s : CurveScene) : CurveScene :=
  emit s Signal.curveChanged

/-- `CurveScene::addPoint`. -/
def addPoint (s : CurveScene) (x y : ℚ) (interp : InterpType) (select : Bool) : CurveScene :=
  let x := clamp x 0 1
  let y := clamp y 0 1
  let s1 : CurveScene := { s with _cvs := s._cvs ++ [⟨x, y, interp⟩] }
  let newIndex : Int := (s1._cvs.length : Int) - 1
  let s2 := rebuildCurve s1
  let s3 := if select then { s2 with _selectedItem := newIndex } else s2
  drawPoints (drawPoly s3)

/-- `CurveScene::removePoint`. -/
def removePoint (s : CurveScene) (index : Int) : Option CurveScene :=
  match eraseAt s._cvs index with
  | none => none
  | some cvs =>
    let s1 : CurveScene := { s with _cvs := cvs }
    let s2 : CurveScene := { s1 with _selectedItem := -1 }
    let s3 := rebuildCurve s2
    some (emitCurveChanged (drawPoints (drawPoly s3)))

/-- Keys told apart by `keyPressEvent`. -/
inductive Key where
  | Key_Backspace
  | Key_Delete
  | other
deriving DecidableEq, Repr

/-- `CurveScene::keyPressEvent`. -/
def keyPressEvent (s : CurveScene) (key : Key) : Option CurveScene :=
  if (key = Key.Key_Backspace ∨ key = Key.Key_Delete) ∧ s._selectedItem ≥ 0 then
    removePoint s s._selectedItem
  else some s

/-- What `items(pos)` reports for a click: no item, a first item with z value 2
(the circle item number `i`), or a first item with another z value (the outline
rectangle or the curve polygon). -/
inductive Hit where
  | nothing
  | circle (i : Nat)
  | background
deriving DecidableEq, Repr

/-- The part of a `QGraphicsSceneMouseEvent` the scene reads: the scene position,
the items under it, and whether `buttons()` is exactly the left button. -/
structure MouseEvent where
  x : ℚ
  y : ℚ
  items : Hit
  leftOnly : Bool
deriving DecidableEq, Repr

/-- `CurveScene::mousePressEvent`. -/
def mousePressEvent (s : CurveScene) (e : MouseEvent) : Option CurveScene :=
  let s : CurveScene := { s with _lmb := true }
  match e.items with
  | Hit.nothing =>
    let s1 : CurveScene := { s with _selectedItem := -1 }
    some (drawPoints (emit s1 (Signal.cvSelected (-1) (-1) s1._interp)))
  | Hit.circle i =>
    if i < s._circleObjects then
      match readAt s._cvs i with
      | none => none
      | some cv =>
        let s1 : CurveScene := { s with _selectedItem := i }
        let s2 : CurveScene := { s1 with _interp := cv._interp }
        some (drawPoints (emit s2 (Signal.cvSelected cv._pos cv._val cv._interp)))
    else some (drawPoints s)
  | Hit.background =>
    if e.leftOnly then
      let myx := e.x / s._width
      let interpFromNearby := s._curve.lowerBoundInterp (clamp myx 0 1)
      let interpFromNearby :=
        if interpFromNearby = InterpType.kNone then InterpType.kMonotoneSpline
        else interpFromNearby
      some (emitCurveChanged (addPoint s myx (e.y / s._height) interpFromNearby addPointSelectDefault))
    else
      some (drawPoints { s with _selectedItem := -1 })

/-- `CurveScene::contextMenuEvent`; `chosenDelete` tells whether the menu
returned the "Delete Point" action. -/
def contextMenuEvent (s : CurveScene) (chosenDelete : Bool) : Option CurveScene :=
  if s._selectedItem ≥ 0 then
    if chosenDelete then removePoint s s._selectedItem else some s
  else some s

/-- `CurveScene::mouseMoveEvent`. -/
def mouseMoveEvent (s : CurveScene) (e : MouseEvent) : Option CurveScene :=
  if s._lmb then
    if s._selectedItem ≥ 0 then
      let pos := clamp (e.x / s._width) 0 1
      let val := clamp (e.y / s._height) 0 1
      match writeAt s._cvs s._selectedItem (fun cv => { cv with _pos := pos }) with
      | none => none
      | some cvs1 =>
        match writeAt cvs1 s._selectedItem (fun cv => { cv with _val := val }) with
        | none => none
        | some cvs2 =>
          let s1 := rebuildCurve { s with _cvs := cvs2 }
          match readAt s1._cvs s1._selectedItem with
          | none => none
          | some cv =>
            let s2 := emit s1 (Signal.cvSelected pos val cv._interp)
            some (emitCurveChanged (drawPoints (drawPoly s2)))
    else some s
  else some s

/-- `CurveScene::mouseReleaseEvent`. -/
def mouseReleaseEvent (s : CurveScene) : CurveScene :=
  { s with _lmb := false }

/-- `CurveScene::interpChanged`; the slot receives the combo-box index, which
`T_INTERP(interp)` turns into the enumerator taken here. -/
def interpChanged (s : CurveScene) (interp : InterpType) : Option CurveScene :=
  let s : CurveScene := { s with _interp := interp }
  if s._selectedItem ≥ 0 then
    match writeAt s._cvs s._selectedItem (fun cv => { cv with _interp := s._interp }) with
    | none => none
    | some cvs =>
      let s1 := rebuildCurve { s with _cvs := cvs }
      some (emitCurveChanged (drawPoly s1))
  else some s

/-- `CurveScene::selPosChanged`. -/
def selPosChanged (s : CurveScene) (posInput : ℚ) : Option CurveScene :=
  if s._selectedItem ≥ 0 then
    let pos := clamp posInput 0 1
    match writeAt s._cvs s._selectedItem (fun cv => { cv with _pos := pos }) with
    | none => none
    | some cvs =>
      let s1 := rebuildCurve { s with _cvs := cvs }
      some (emitCurveChanged (drawPoints (drawPoly s1)))
  else some s

/-- `CurveScene::selValChanged`. -/
def selValChanged (s : CurveScene) (val : ℚ) : Option CurveScene :=
  if s._selectedItem ≥ 0 then
    let val := clamp val 0 1
    match writeAt s._cvs s._selectedItem (fun cv => { cv with _val := val }) with
    | none => none
    | some cvs =>
      let s1 := rebuildCurve { s with _cvs := cvs }
      some (emitCurveChanged (drawPoints (drawPoly s1)))
  else some s

/-- An operation on a `CurveScene`, with its arguments. -/
inductive Op where
  | addPoint (x y : ℚ) (interp : InterpType) (select : Bool)
  | removePoint (index : Int)
  | removeAll
  | resize (width height : Int)
  | keyPressEvent (key : Key)
  | mousePressEvent (e : MouseEvent)
  | contextMenuEvent (chosenDelete : Bool)
  | mouseMoveEvent (e : MouseEvent)
  | mouseReleaseEvent
  | interpChanged (interp : InterpType)
  | selPosChanged (posInput : ℚ)
  | selValChanged (val : ℚ)
deriving DecidableEq, Repr

/-- Performs one operation; `none` when it runs into an unchecked access. -/
def step (s : CurveScene) : Op → Option CurveScene
  | Op.addPoint x y interp select => some (addPoint s x y interp select)
  | Op.removePoint index => removePoint s index
  | Op.removeAll => some (removeAll s)
  | Op.resize width height => some (resize s width height)
  | Op.keyPressEvent key => keyPressEvent s key
  | Op.mousePressEvent e => mousePressEvent s e
  | Op.contextMenuEvent chosenDelete => contextMenuEvent s chosenDelete
  | Op.mouseMoveEvent e => mouseMoveEvent s e
  | Op.mouseReleaseEvent => some (mouseReleaseEvent s)
  | Op.interpChanged interp => interpChanged s interp
  | Op.selPosChanged posInput => selPosChanged s posInput
  | Op.selValChanged val => selValChanged s val

/-- Performs a sequence of operations from left to right. -/
def run (s : CurveScene) : List Op → Option CurveScene
  | [] => some s
  | op :: ops =>
    match step s op with
    | none => none
    | some s1 => run s1 ops

end CurveScene

/-- The `ExprCurve` widget, as far as the curve data goes: its scene. -/
structure ExprCurve where
  _scene : CurveScene
deriving DecidableEq, Repr

namespace ExprCurve

/-- `ExprCurve::ExprCurve`: `_scene = new CurveScene`. -/
def new : ExprCurve := ⟨CurveScene.new⟩

/-- Modelled from the spec: `ExprCurve::addPoint`, declared in `ExprCurve.h`
(absent), "`addPoint(position, value, interp, select=false)`": passes the point to
the scene; the three-argument calls of `ExprControl.cpp` leave `select` false. -/
def addPoint (w : ExprCurve) (x y : ℚ) (interp : InterpType) (select : Bool) : ExprCurve :=
  { w with _scene := w._scene.addPoint x y interp select }

/-- The body of each `if (dialog->exec() == QDialog::Accepted)` block of
`ExprCurve::openDetail`, `dataNew` being the CVs of the dialog's curve:
`removeAll`, one `addPoint` per CV, then `emitCurveChanged`. -/
def openDetailAccepted (w : ExprCurve) (dataNew : List CV) : ExprCurve :=
  let w1 : ExprCurve := { w with _scene := w._scene.removeAll }
  let w2 := dataNew.foldl (fun w cv => w.addPoint cv._pos cv._val cv._interp false) w1
  { w2 with _scene := w2._scene.emitCurveChanged }

/-- `ExprCurve::openDetail`: the dialog is executed twice; `first` and `second`
are `none` when that execution is rejected and hold the CVs of the dialog's
curve when it is accepted. -/
def openDetail (w : ExprCurve) (first second : Option (List CV)) : ExprCurve :=
  let w1 := match first with
    | some dataNew => openDetailAccepted w dataNew
    | none => w
  match second with
  | some dataNew => openDetailAccepted w1 dataNew
  | none => w1

end ExprCurve

/-- The `CurveEditable` a control edits: its `cvs`. -/
structure CurveEditable where
  cvs : List CV
deriving DecidableEq, Repr

/-- State of `CurveControl`: the owned `ExprCurve` and the editable it points to.
Both pointers are set by the constructor, so the test `_curve && _curveEditable`
of `curveChanged` holds. -/
structure CurveControl where
  _curve : ExprCurve
  _curveEditable : CurveEditable
deriving DecidableEq, Repr

namespace CurveControl

/-- `CurveControl::CurveControl`: a new `ExprCurve`, then one `addPoint` per CV of
the editable, in order. -/
def new (editable : CurveEditable) : CurveControl :=
  { _curve := editable.cvs.foldl
      (fun w cv => w.addPoint cv._pos cv._val cv._interp false) ExprCurve.new,
    _curveEditable := editable }

/-- `CurveControl::curveChanged`, the slot connected to the scene's
`curveChanged` signal: copies the scene's `_cvs` into the editable. -/
def curveChanged (c : CurveControl) : CurveControl :=
  { c with _curveEditable := { c._curveEditable with cvs := c._curve._scene._cvs } }

end CurveControl

open CurveScene

/-- Number of `curveChanged` emissions in a log. -/
def curveChangedCount (log : List Emitted) : Nat :=
  (log.filter (fun e => e.signal = Signal.curveChanged)).length

/-- Going from scene `s` to scene `s'` emitted `curveChanged` exactly once, as
the last signal, and at that moment the scene showed the final CV list and the
curve built from it. -/
def EmitsOnceAfterRebuild (s s' : CurveScene) : Prop :=
  s.emitted <+: s'.emitted
    ∧ curveChangedCount s'.emitted = curveChangedCount s.emitted + 1
    ∧ s'.emitted.getLast? = some ⟨Signal.curveChanged, s'._cvs, buildCurve s'._cvs⟩

instance (s s' : CurveScene) : Decidable (EmitsOnceAfterRebuild s s') := by
  unfold EmitsOnceAfterRebuild; infer_instance

/-- The derived curve of the scene is the one built from its stored CVs. -/
def InSync (s : CurveScene) : Prop :=
  s._curve = buildCurve s._cvs

instance (s : CurveScene) : Decidable (InSync s) := by
  unfold InSync; infer_instance

/-- The CV with position and value clamped to `[0, 1]`. -/
def clampCV (cv : CV) : CV :=
  ⟨clamp cv._pos 0 1, clamp cv._val 0 1, cv._interp⟩

/-- Every control vertex of the list has position and value in `[0, 1]`. -/
def CVsInRange (cvs : List CV) : Prop :=
  ∀ cv ∈ cvs, (0 ≤ cv._pos ∧ cv._pos ≤ 1) ∧ (0 ≤ cv._val ∧ cv._val ≤ 1)

instance (cvs : List CV) : Decidable (CVsInRange cvs) := by
  unfold CVsInRange; infer_instance

/-- The selected index is `-1` or the index of a stored CV. -/
def SelValid (s : CurveScene) : Prop :=
  s._selectedItem = -1 ∨ (0 ≤ s._selectedItem ∧ s._selectedItem < s._cvs.length)

instance (s : CurveScene) : Decidable (SelValid s) := by
  unfold SelValid; infer_instance

/-- Whether a mouse press has occurred since the last release, after one more
operation. -/
def pressedStep (b : Bool) : Op → Bool
  | Op.mousePressEvent _ => true
  | Op.mouseReleaseEvent => false
  | _ => b

/-- Whether a mouse press has occurred since the last release, after a sequence
of operations. -/
def pressedAfter (b : Bool) (ops : List Op) : Bool :=
  ops.foldl pressedStep b

/-- The operation is a mouse press. -/
def CurveScene.Op.isPress : Op → Bool
  | Op.mousePressEvent _ => true
  | _ => false

/-! ## Auxiliary lemmas -/

theorem clamp_unit_bounds (x : ℚ) : 0 ≤ clamp x 0 1 ∧ clamp x 0 1 ≤ 1 := by
  unfold clamp
  split_ifs with h1 h2
  · exact ⟨le_refl _, zero_le_one⟩
  · exact ⟨zero_le_one, le_refl _⟩
  · exact ⟨not_lt.mp h1, not_lt.mp h2⟩

theorem clamp_of_gt_one (p : ℚ) (h : 1 < p) : clamp p 0 1 = clamp 1 0 1 := by
  have h0 : ¬ p < 0 := not_lt.mpr (le_trans zero_le_one h.le)
  simp [clamp, h0, h]
  norm_num

theorem clamp_of_lt_zero (p : ℚ) (h : p < 0) : clamp p 0 1 = clamp 0 0 1 := by
  simp [clamp, h]
  norm_num

theorem readAt_eq_some (cvs : List CV) (i : Int) (h0 : 0 ≤ i) (h1 : i < cvs.length) :
    ∃ cv, readAt cvs i = some cv ∧ cvs[i.toNat]? = some cv := by
  have hlt : i.toNat < cvs.length := by omega
  refine ⟨cvs[i.toNat], ?_, ?_⟩
  · simp [readAt, h0, h1, List.getElem?_eq_getElem hlt]
  · exact List.getElem?_eq_getElem hlt

theorem readAt_eq_none (cvs : List CV) (i : Int) (h : i < 0 ∨ (cvs.length : Int) ≤ i) :
    readAt cvs i = none := by
  have : ¬ (0 ≤ i ∧ i < cvs.length) := by omega
  simp [readAt, this]

theorem eraseAt_eq_none_iff (cvs : List CV) (i : Int) :
    eraseAt cvs i = none ↔ (i < 0 ∨ (cvs.length : Int) ≤ i) := by
  unfold eraseAt
  split_ifs with h
  · simp; omega
  · simp; omega

theorem addPoint_cvs (s : CurveScene) (x y : ℚ) (interp : InterpType) (select : Bool) :
    (addPoint s x y interp select)._cvs = s._cvs ++ [⟨clamp x 0 1, clamp y 0 1, interp⟩] := by
  cases select <;> simp [addPoint, drawPoints, drawPoly, rebuildCurve]

theorem addPoint_curve (s : CurveScene) (x y : ℚ) (interp : InterpType) (select : Bool) :
    (addPoint s x y interp select)._curve
      = buildCurve (s._cvs ++ [⟨clamp x 0 1, clamp y 0 1, interp⟩]) := by
  cases select <;> simp [addPoint, drawPoints, drawPoly, rebuildCurve]

theorem eraseIdx_length_append_singleton (cvs : List CV) (cv : CV) :
    (cvs ++ [cv]).eraseIdx cvs.length = cvs := by
  induction cvs with
  | nil => rfl
  | cons a l ih => simpa using ih

theorem eraseAt_of_lt (cvs : List CV) (i : Int) (h0 : 0 ≤ i) (h1 : i < cvs.length) :
    eraseAt cvs i = some (cvs.eraseIdx i.toNat) := by
  simp [eraseAt, h0, h1]

theorem removePoint_of_lt (s : CurveScene) (i : Int) (h0 : 0 ≤ i) (h1 : i < s._cvs.length) :
    removePoint s i = some
      { s with _cvs := s._cvs.eraseIdx i.toNat,
               _selectedItem := -1,
               _curve := buildCurve (s._cvs.eraseIdx i.toNat),
               _circleObjects := (s._cvs.eraseIdx i.toNat).length,
               emitted := s.emitted ++ [⟨Signal.curveChanged, s._cvs.eraseIdx i.toNat,
                 buildCurve (s._cvs.eraseIdx i.toNat)⟩] } := by
  simp [removePoint, eraseAt_of_lt s._cvs i h0 h1, emitCurveChanged, emit, drawPoints, drawPoly,
    rebuildCurve]

theorem removePoint_eq_none_iff (s : CurveScene) (i : Int) :
    removePoint s i = none ↔ (i < 0 ∨ (s._cvs.length : Int) ≤ i) := by
  rw [← eraseAt_eq_none_iff]
  unfold removePoint
  cases eraseAt s._cvs i <;> simp

theorem writeAt_of_lt (cvs : List CV) (i : Int) (f : CV → CV) (h0 : 0 ≤ i)
    (h1 : i < cvs.length) :
    ∃ cv, cvs[i.toNat]? = some cv ∧ writeAt cvs i f = some (cvs.set i.toNat (f cv)) := by
  obtain ⟨cv, hr, hg⟩ := readAt_eq_some cvs i h0 h1
  exact ⟨cv, hg, by simp [writeAt, hr]⟩

theorem writeAt_of_ge (cvs : List CV) (i : Int) (f : CV → CV)
    (h : i < 0 ∨ (cvs.length : Int) ≤ i) : writeAt cvs i f = none := by
  simp [writeAt, readAt_eq_none cvs i h]

theorem readAt_set_self (cvs : List CV) (i : Int) (c : CV) (h0 : 0 ≤ i) (h1 : i < cvs.length) :
    readAt (cvs.set i.toNat c) i = some c := by
  have hlt : i.toNat < cvs.length := by omega
  simp [readAt, h0, h1, hlt]

theorem writeAt_set_self (cvs : List CV) (i : Int) (c : CV) (f : CV → CV) (h0 : 0 ≤ i)
    (h1 : i < cvs.length) :
    writeAt (cvs.set i.toNat c) i f = some (cvs.set i.toNat (f c)) := by
  simp [writeAt, readAt_set_self cvs i c h0 h1]

theorem CVsInRange_set (cvs : List CV) (n : Nat) (c : CV) (h : CVsInRange cvs)
    (hc : (0 ≤ c._pos ∧ c._pos ≤ 1) ∧ (0 ≤ c._val ∧ c._val ≤ 1)) :
    CVsInRange (cvs.set n c) := by
  intro cv hcv
  rcases List.mem_or_eq_of_mem_set hcv with hm | rfl
  · exact h cv hm
  · exact hc

theorem CVsInRange_eraseIdx (cvs : List CV) (n : Nat) (h : CVsInRange cvs) :
    CVsInRange (cvs.eraseIdx n) :=
  fun cv hcv => h cv (List.mem_of_mem_eraseIdx hcv)

theorem CVsInRange_addPoint (s : CurveScene) (x y : ℚ) (interp : InterpType) (select : Bool)
    (h : CVsInRange s._cvs) : CVsInRange (addPoint s x y interp select)._cvs := by
  rw [addPoint_cvs]
  intro cv hcv
  rcases List.mem_append.mp hcv with hm | hm
  · exact h cv hm
  · rw [List.mem_singleton] at hm
    subst hm
    exact ⟨clamp_unit_bounds x, clamp_unit_bounds y⟩

theorem removePoint_cvs (s s' : CurveScene) (i : Int) (h : removePoint s i = some s') :
    s'._cvs = s._cvs.eraseIdx i.toNat ∧ 0 ≤ i ∧ i < s._cvs.length := by
  have hr : ¬ (i < 0 ∨ (s._cvs.length : Int) ≤ i) := by
    intro hc
    rw [(removePoint_eq_none_iff s i).2 hc] at h
    exact Option.noConfusion h
  have h0 : 0 ≤ i := by omega
  have h1 : i < s._cvs.length := by omega
  rw [removePoint_of_lt s i h0 h1] at h
  injection h with h
  subst h
  exact ⟨rfl, h0, h1⟩

/-! ### The update slots in closed form -/

theorem selPosChanged_of_neg (s : CurveScene) (p : ℚ) (h : s._selectedItem < 0) :
    selPosChanged s p = some s := by
  have : ¬ s._selectedItem ≥ 0 := by omega
  simp [selPosChanged, this]

theorem selPosChanged_of_ge (s : CurveScene) (p : ℚ) (h0 : 0 ≤ s._selectedItem)
    (h1 : (s._cvs.length : Int) ≤ s._selectedItem) : selPosChanged s p = none := by
  simp [selPosChanged, h0, writeAt_of_ge s._cvs s._selectedItem _ (Or.inr h1)]

theorem selPosChanged_of_sel (s : CurveScene) (p : ℚ) (h0 : 0 ≤ s._selectedItem)
    (h1 : s._selectedItem < s._cvs.length) :
    ∃ cv, s._cvs[s._selectedItem.toNat]? = some cv ∧
      selPosChanged s p = some
        { s with
          _cvs := s._cvs.set s._selectedItem.toNat ⟨clamp p 0 1, cv._val, cv._interp⟩,
          _curve := buildCurve
            (s._cvs.set s._selectedItem.toNat ⟨clamp p 0 1, cv._val, cv._interp⟩),
          _circleObjects := s._cvs.length,
          emitted := s.emitted ++ [⟨Signal.curveChanged,
            s._cvs.set s._selectedItem.toNat ⟨clamp p 0 1, cv._val, cv._interp⟩,
            buildCurve (s._cvs.set s._selectedItem.toNat ⟨clamp p 0 1, cv._val, cv._interp⟩)⟩] } := by
  obtain ⟨cv, hg, hw⟩ := writeAt_of_lt s._cvs s._selectedItem
    (fun cv => { cv with _pos := clamp p 0 1 }) h0 h1
  refine ⟨cv, hg, ?_⟩
  simp only [selPosChanged, ge_iff_le, h0, if_true, hw]
  simp [emitCurveChanged, emit, drawPoints, drawPoly, rebuildCurve]

theorem selValChanged_of_neg (s : CurveScene) (v : ℚ) (h : s._selectedItem < 0) :
    selValChanged s v = some s := by
  have : ¬ s._selectedItem ≥ 0 := by omega
  simp [selValChanged, this]

theorem selValChanged_of_ge (s : CurveScene) (v : ℚ) (h0 : 0 ≤ s._selectedItem)
    (h1 : (s._cvs.length : Int) ≤ s._selectedItem) : selValChanged s v = none := by
  simp [selValChanged, h0, writeAt_of_ge s._cvs s._selectedItem _ (Or.inr h1)]

theorem selValChanged_of_sel (s : CurveScene) (v : ℚ) (h0 : 0 ≤ s._selectedItem)
    (h1 : s._selectedItem < s._cvs.length) :
    ∃ cv, s._cvs[s._selectedItem.toNat]? = some cv ∧
      selValChanged s v = some
        { s with
          _cvs := s._cvs.set s._selectedItem.toNat ⟨cv._pos, clamp v 0 1, cv._interp⟩,
          _curve := buildCurve
            (s._cvs.set s._selectedItem.toNat ⟨cv._pos, clamp v 0 1, cv._interp⟩),
          _circleObjects := s._cvs.length,
          emitted := s.emitted ++ [⟨Signal.curveChanged,
            s._cvs.set s._selectedItem.toNat ⟨cv._pos, clamp v 0 1, cv._interp⟩,
            buildCurve (s._cvs.set s._selectedItem.toNat ⟨cv._pos, clamp v 0 1, cv._interp⟩)⟩] } := by
  obtain ⟨cv, hg, hw⟩ := writeAt_of_lt s._cvs s._selectedItem
    (fun cv => { cv with _val := clamp v 0 1 }) h0 h1
  refine ⟨cv, hg, ?_⟩
  simp only [selValChanged, ge_iff_le, h0, if_true, hw]
  simp [emitCurveChanged, emit, drawPoints, drawPoly, rebuildCurve]

theorem interpChanged_of_neg (s : CurveScene) (m : InterpType) (h : s._selectedItem < 0) :
    interpChanged s m = some { s with _interp := m } := by
  have : ¬ s._selectedItem ≥ 0 := by omega
  simp [interpChanged, this]

theorem interpChanged_of_ge (s : CurveScene) (m : InterpType) (h0 : 0 ≤ s._selectedItem)
    (h1 : (s._cvs.length : Int) ≤ s._selectedItem) : interpChanged s m = none := by
  simp [interpChanged, h0, writeAt_of_ge s._cvs s._selectedItem _ (Or.inr h1)]

theorem interpChanged_of_sel (s : CurveScene) (m : InterpType) (h0 : 0 ≤ s._selectedItem)
    (h1 : s._selectedItem < s._cvs.length) :
    ∃ cv, s._cvs[s._selectedItem.toNat]? = some cv ∧
      interpChanged s m = some
        { s with
          _interp := m,
          _cvs := s._cvs.set s._selectedItem.toNat ⟨cv._pos, cv._val, m⟩,
          _curve := buildCurve (s._cvs.set s._selectedItem.toNat ⟨cv._pos, cv._val, m⟩),
          emitted := s.emitted ++ [⟨Signal.curveChanged,
            s._cvs.set s._selectedItem.toNat ⟨cv._pos, cv._val, m⟩,
            buildCurve (s._cvs.set s._selectedItem.toNat ⟨cv._pos, cv._val, m⟩)⟩] } := by
  obtain ⟨cv, hg, hw⟩ := writeAt_of_lt s._cvs s._selectedItem
    (fun cv => { cv with _interp := m }) h0 h1
  refine ⟨cv, hg, ?_⟩
  simp only [interpChanged, ge_iff_le, h0, if_true, hw]
  simp [emitCurveChanged, emit, drawPoly, rebuildCurve]

theorem mouseMoveEvent_of_not_lmb (s : CurveScene) (e : MouseEvent) (h : s._lmb = false) :
    mouseMoveEvent s e = some s := by
  simp [mouseMoveEvent, h]

theorem mouseMoveEvent_of_neg (s : CurveScene) (e : MouseEvent) (h : s._selectedItem < 0) :
    mouseMoveEvent s e = some s := by
  have : ¬ s._selectedItem ≥ 0 := by omega
  simp [mouseMoveEvent, this]

theorem mouseMoveEvent_of_ge (s : CurveScene) (e : MouseEvent) (hl : s._lmb = true)
    (h0 : 0 ≤ s._selectedItem) (h1 : (s._cvs.length : Int) ≤ s._selectedItem) :
    mouseMoveEvent s e = none := by
  simp [mouseMoveEvent, hl, h0, writeAt_of_ge s._cvs s._selectedItem _ (Or.inr h1)]

theorem mouseMoveEvent_of_sel (s : CurveScene) (e : MouseEvent) (hl : s._lmb = true)
    (h0 : 0 ≤ s._selectedItem) (h1 : s._selectedItem < s._cvs.length) :
    ∃ cv, s._cvs[s._selectedItem.toNat]? = some cv ∧
      mouseMoveEvent s e = some
        { s with
          _cvs := s._cvs.set s._selectedItem.toNat
            ⟨clamp (e.x / s._width) 0 1, clamp (e.y / s._height) 0 1, cv._interp⟩,
          _curve := buildCurve (s._cvs.set s._selectedItem.toNat
            ⟨clamp (e.x / s._width) 0 1, clamp (e.y / s._height) 0 1, cv._interp⟩),
          _circleObjects := s._cvs.length,
          emitted := s.emitted ++
            [⟨Signal.cvSelected (clamp (e.x / s._width) 0 1) (clamp (e.y / s._height) 0 1)
                cv._interp,
              s._cvs.set s._selectedItem.toNat
                ⟨clamp (e.x / s._width) 0 1, clamp (e.y / s._height) 0 1, cv._interp⟩,
              buildCurve (s._cvs.set s._selectedItem.toNat
                ⟨clamp (e.x / s._width) 0 1, clamp (e.y / s._height) 0 1, cv._interp⟩)⟩,
             ⟨Signal.curveChanged,
              s._cvs.set s._selectedItem.toNat
                ⟨clamp (e.x / s._width) 0 1, clamp (e.y / s._height) 0 1, cv._interp⟩,
              buildCurve (s._cvs.set s._selectedItem.toNat
                ⟨clamp (e.x / s._width) 0 1, clamp (e.y / s._height) 0 1, cv._interp⟩)⟩] } := by
  obtain ⟨cv, hg, hw⟩ := writeAt_of_lt s._cvs s._selectedItem
    (fun cv => { cv with _pos := clamp (e.x / s._width) 0 1 }) h0 h1
  refine ⟨cv, hg, ?_⟩
  have hw2 := writeAt_set_self s._cvs s._selectedItem
    ⟨clamp (e.x / s._width) 0 1, cv._val, cv._interp⟩
    (fun cv => { cv with _val := clamp (e.y / s._height) 0 1 }) h0 h1
  have hr := readAt_set_self s._cvs s._selectedItem
    ⟨clamp (e.x / s._width) 0 1, clamp (e.y / s._height) 0 1, cv._interp⟩ h0 h1
  simp only [mouseMoveEvent, hl, ge_iff_le, h0, if_true, hw, hw2, rebuildCurve, hr]
  simp [emitCurveChanged, emit, drawPoints, drawPoly]

theorem keyPressEvent_of_neg (s : CurveScene) (key : Key) (h : s._selectedItem < 0) :
    keyPressEvent s key = some s := by
  have : ¬ s._selectedItem ≥ 0 := by omega
  simp [keyPressEvent, this]

theorem keyPressEvent_other (s : CurveScene) : keyPressEvent s Key.other = some s := by
  simp [keyPressEvent]

theorem keyPressEvent_delete (s : CurveScene) (key : Key)
    (hk : key = Key.Key_Backspace ∨ key = Key.Key_Delete) (h0 : 0 ≤ s._selectedItem) :
    keyPressEvent s key = removePoint s s._selectedItem := by
  simp [keyPressEvent, hk, h0]

theorem mousePressEvent_create (s : CurveScene) (x y : ℚ) :
    mousePressEvent s ⟨x, y, Hit.background, true⟩ = some (emitCurveChanged
      (addPoint { s with _lmb := true } (x / s._width) (y / s._height)
        (if s._curve.lowerBoundInterp (clamp (x / s._width) 0 1) = InterpType.kNone
          then InterpType.kMonotoneSpline
          else s._curve.lowerBoundInterp (clamp (x / s._width) 0 1))
        addPointSelectDefault)) := by
  simp [mousePressEvent]

theorem mousePressEvent_cvs (s s' : CurveScene) (e : MouseEvent)
    (hs : mousePressEvent s e = some s') :
    s'._cvs = s._cvs ∨ ∃ x y m, s'._cvs = s._cvs ++ [⟨clamp x 0 1, clamp y 0 1, m⟩] := by
  obtain ⟨x, y, items, leftOnly⟩ := e
  cases items with
  | nothing =>
    simp [mousePressEvent, drawPoints, emit] at hs
    subst hs; exact Or.inl rfl
  | circle i =>
    by_cases hi : i < s._circleObjects
    · cases hr : readAt s._cvs (i : Int) with
      | none => simp [mousePressEvent, hi, hr] at hs
      | some cv =>
        simp [mousePressEvent, hi, hr, drawPoints, emit] at hs
        subst hs; exact Or.inl rfl
    · simp [mousePressEvent, hi, drawPoints] at hs
      subst hs; exact Or.inl rfl
  | background =>
    cases leftOnly with
    | true =>
      rw [mousePressEvent_create] at hs
      injection hs with hs
      subst hs
      refine Or.inr ⟨x / s._width, y / s._height,
        if s._curve.lowerBoundInterp (clamp (x / s._width) 0 1) = InterpType.kNone
          then InterpType.kMonotoneSpline
          else s._curve.lowerBoundInterp (clamp (x / s._width) 0 1), ?_⟩
      show (addPoint _ _ _ _ _)._cvs = _
      rw [addPoint_cvs]
    | false =>
      simp [mousePressEvent, drawPoints] at hs
      subst hs; exact Or.inl rfl

/-! ### Preservation of the unit-square invariant -/

theorem CVsInRange_removePoint (s s' : CurveScene) (i : Int) (h : CVsInRange s._cvs)
    (hs : removePoint s i = some s') : CVsInRange s'._cvs := by
  rw [(removePoint_cvs s s' i hs).1]
  exact CVsInRange_eraseIdx _ _ h

theorem CVsInRange_keyPressEvent (s s' : CurveScene) (key : Key) (h : CVsInRange s._cvs)
    (hs : keyPressEvent s key = some s') : CVsInRange s'._cvs := by
  unfold keyPressEvent at hs
  split_ifs at hs
  · exact CVsInRange_removePoint s s' _ h hs
  · injection hs with hs; subst hs; exact h

theorem CVsInRange_contextMenuEvent (s s' : CurveScene) (b : Bool) (h : CVsInRange s._cvs)
    (hs : contextMenuEvent s b = some s') : CVsInRange s'._cvs := by
  unfold contextMenuEvent at hs
  split_ifs at hs
  · exact CVsInRange_removePoint s s' _ h hs
  · injection hs with hs; subst hs; exact h
  · injection hs with hs; subst hs; exact h

theorem CVsInRange_mousePressEvent (s s' : CurveScene) (e : MouseEvent) (h : CVsInRange s._cvs)
    (hs : mousePressEvent s e = some s') : CVsInRange s'._cvs := by
  rcases mousePressEvent_cvs s s' e hs with hc | ⟨x, y, m, hc⟩
  · rw [hc]; exact h
  · rw [hc]
    intro cv hcv
    rcases List.mem_append.mp hcv with hm | hm
    · exact h cv hm
    · rw [List.mem_singleton] at hm
      subst hm
      exact ⟨clamp_unit_bounds x, clamp_unit_bounds y⟩

theorem CVsInRange_selPosChanged (s s' : CurveScene) (p : ℚ) (h : CVsInRange s._cvs)
    (hs : selPosChanged s p = some s') : CVsInRange s'._cvs := by
  by_cases h0 : 0 ≤ s._selectedItem
  · by_cases h1 : s._selectedItem < s._cvs.length
    · obtain ⟨cv, hg, he⟩ := selPosChanged_of_sel s p h0 h1
      rw [he] at hs
      injection hs with hs
      subst hs
      exact CVsInRange_set _ _ _ h ⟨clamp_unit_bounds p, (h cv (List.getElem?_mem hg)).2⟩
    · rw [selPosChanged_of_ge s p h0 (by omega)] at hs
      exact Option.noConfusion hs
  · rw [selPosChanged_of_neg s p (by omega)] at hs
    injection hs with hs; subst hs; exact h

theorem CVsInRange_selValChanged (s s' : CurveScene) (v : ℚ) (h : CVsInRange s._cvs)
    (hs : selValChanged s v = some s') : CVsInRange s'._cvs := by
  by_cases h0 : 0 ≤ s._selectedItem
  · by_cases h1 : s._selectedItem < s._cvs.length
    · obtain ⟨cv, hg, he⟩ := selValChanged_of_sel s v h0 h1
      rw [he] at hs
      injection hs with hs
      subst hs
      exact CVsInRange_set _ _ _ h ⟨(h cv (List.getElem?_mem hg)).1, clamp_unit_bounds v⟩
    · rw [selValChanged_of_ge s v h0 (by omega)] at hs
      exact Option.noConfusion hs
  · rw [selValChanged_of_neg s v (by omega)] at hs
    injection hs with hs; subst hs; exact h

theorem CVsInRange_interpChanged (s s' : CurveScene) (m : InterpType) (h : CVsInRange s._cvs)
    (hs : interpChanged s m = some s') : CVsInRange s'._cvs := by
  by_cases h0 : 0 ≤ s._selectedItem
  · by_cases h1 : s._selectedItem < s._cvs.length
    · obtain ⟨cv, hg, he⟩ := interpChanged_of_sel s m h0 h1
      rw [he] at hs
      injection hs with hs
      subst hs
      exact CVsInRange_set _ _ _ h (h cv (List.getElem?_mem hg))
    · rw [interpChanged_of_ge s m h0 (by omega)] at hs
      exact Option.noConfusion hs
  · rw [interpChanged_of_neg s m (by omega)] at hs
    injection hs with hs; subst hs; exact h

theorem CVsInRange_mouseMoveEvent (s s' : CurveScene) (e : MouseEvent) (h : CVsInRange s._cvs)
    (hs : mouseMoveEvent s e = some s') : CVsInRange s'._cvs := by
  cases hl : s._lmb with
  | false =>
    rw [mouseMoveEvent_of_not_lmb s e hl] at hs
    injection hs with hs; subst hs; exact h
  | true =>
    by_cases h0 : 0 ≤ s._selectedItem
    · by_cases h1 : s._selectedItem < s._cvs.length
      · obtain ⟨cv, hg, he⟩ := mouseMoveEvent_of_sel s e hl h0 h1
        rw [he] at hs
        injection hs with hs
        subst hs
        exact CVsInRange_set _ _ _ h ⟨clamp_unit_bounds _, clamp_unit_bounds _⟩
      · rw [mouseMoveEvent_of_ge s e hl h0 (by omega)] at hs
        exact Option.noConfusion hs
    · rw [mouseMoveEvent_of_neg s e (by omega)] at hs
      injection hs with hs; subst hs; exact h

theorem CVsInRange_step (s s' : CurveScene) (op : Op) (h : CVsInRange s._cvs)
    (hs : step s op = some s') : CVsInRange s'._cvs := by
  cases op with
  | addPoint x y interp select =>
    simp only [step, Option.some.injEq] at hs
    subst hs; exact CVsInRange_addPoint s x y interp select h
  | removePoint index => exact CVsInRange_removePoint s s' index h hs
  | removeAll =>
    simp only [step, Option.some.injEq] at hs
    subst hs
    intro cv hcv
    simp [removeAll] at hcv
  | resize width height =>
    simp only [step, Option.some.injEq] at hs
    subst hs; exact h
  | keyPressEvent key => exact CVsInRange_keyPressEvent s s' key h hs
  | mousePressEvent e => exact CVsInRange_mousePressEvent s s' e h hs
  | contextMenuEvent b => exact CVsInRange_contextMenuEvent s s' b h hs
  | mouseMoveEvent e => exact CVsInRange_mouseMoveEvent s s' e h hs
  | mouseReleaseEvent =>
    simp only [step, Option.some.injEq] at hs
    subst hs; exact h
  | interpChanged m => exact CVsInRange_interpChanged s s' m h hs
  | selPosChanged p => exact CVsInRange_selPosChanged s s' p h hs
  | selValChanged v => exact CVsInRange_selValChanged s s' v h hs

theorem CVsInRange_run (ops : List Op) (s s' : CurveScene) (h : CVsInRange s._cvs)
    (hs : run s ops = some s') : CVsInRange s'._cvs := by
  induction ops generalizing s with
  | nil =>
    simp only [run, Option.some.injEq] at hs
    subst hs; exact h
  | cons op ops ih =>
    simp only [run] at hs
    cases hstep : step s op with
    | none => simp [hstep] at hs
    | some s1 =>
      simp only [hstep] at hs
      exact ih s1 (CVsInRange_step s s1 op h hstep) hs

theorem addPoint_selected (s : CurveScene) (x y : ℚ) (interp : InterpType) :
    (addPoint s x y interp true)._selectedItem = s._cvs.length := by
  simp [addPoint, drawPoints, drawPoly, rebuildCurve]

theorem lowerBoundInterp_buildCurve_nil (x : ℚ) :
    (buildCurve []).lowerBoundInterp x = InterpType.kNone := by
  simp [buildCurve, Curve.preparePoints, Curve.empty, Curve.lowerBoundInterp]

/-! ### Emission, rebuild and round-trip lemmas -/

theorem curveChangedCount_append (l1 l2 : List Emitted) :
    curveChangedCount (l1 ++ l2) = curveChangedCount l1 + curveChangedCount l2 := by
  simp [curveChangedCount, List.filter_append]

theorem emitsOnce_of_append (s s' : CurveScene) (pre : List Emitted)
    (h : s'.emitted
      = s.emitted ++ (pre ++ [⟨Signal.curveChanged, s'._cvs, buildCurve s'._cvs⟩]))
    (hpre : curveChangedCount pre = 0) : EmitsOnceAfterRebuild s s' := by
  refine ⟨⟨_, h.symm⟩, ?_, ?_⟩
  · rw [h, curveChangedCount_append, curveChangedCount_append, hpre]
    simp [curveChangedCount]
  · rw [h, ← List.append_assoc]
    simp

theorem foldl_addPoint_cvData (cvs : List CV) (c : Curve) :
    (cvs.foldl (fun c cv => c.addPoint cv._pos cv._val cv._interp) c)._cvData
      = c._cvData ++ cvs := by
  induction cvs generalizing c with
  | nil => simp
  | cons cv rest ih =>
    rw [List.foldl_cons, ih]
    simp [Curve.addPoint]

theorem buildCurve_cvData (cvs : List CV) :
    (buildCurve cvs)._cvData = cvs.insertionSort (fun a b => a._pos ≤ b._pos) := by
  simp [buildCurve, Curve.preparePoints, foldl_addPoint_cvData, Curve.empty]

theorem clamp_of_mem_unit (x : ℚ) (h0 : 0 ≤ x) (h1 : x ≤ 1) : clamp x 0 1 = x := by
  simp [clamp, not_lt.mpr h0, not_lt.mpr h1]

theorem clampCV_of_inRange (cv : CV)
    (h : (0 ≤ cv._pos ∧ cv._pos ≤ 1) ∧ (0 ≤ cv._val ∧ cv._val ≤ 1)) : clampCV cv = cv := by
  obtain ⟨p, v, m⟩ := cv
  simp only [clampCV] at *
  rw [clamp_of_mem_unit p h.1.1 h.1.2, clamp_of_mem_unit v h.2.1 h.2.2]

theorem foldl_widget_addPoint_cvs (cvs : List CV) (w : ExprCurve) :
    (cvs.foldl (fun w cv => w.addPoint cv._pos cv._val cv._interp false) w)._scene._cvs
      = w._scene._cvs ++ cvs.map clampCV := by
  induction cvs generalizing w with
  | nil => simp
  | cons cv rest ih =>
    rw [List.foldl_cons, ih]
    simp [ExprCurve.addPoint, addPoint_cvs, clampCV]

theorem new_cvs : CurveScene.new._cvs = [] := rfl

theorem set_same_of_getElem? (l : List CV) (n : Nat) (c : CV) (h : l[n]? = some c) :
    l.set n c = l := by
  apply List.ext_getElem?
  intro i
  rw [List.getElem?_set]
  split_ifs with hi hl
  · subst hi; exact h.symm
  · subst hi; simp [List.getElem?_eq_none (not_lt.mp hl)]
  · rfl

/-! ### Evaluation lemmas -/

theorem sorted_buildCurve (cvs : List CV) :
    (buildCurve cvs)._cvData.Pairwise (fun a b => a._pos ≤ b._pos) := by
  rw [buildCurve_cvData]
  haveI : IsTotal CV (fun a b => a._pos ≤ b._pos) := ⟨fun a b => le_total _ _⟩
  haveI : IsTrans CV (fun a b => a._pos ≤ b._pos) := ⟨fun a b c h1 h2 => le_trans h1 h2⟩
  exact List.sorted_insertionSort _ cvs

theorem mem_buildCurve (cvs : List CV) (cv : CV) :
    cv ∈ (buildCurve cvs)._cvData ↔ cv ∈ cvs := by
  rw [buildCurve_cvData]
  exact List.mem_insertionSort _

theorem pairwise_pos_le (l : List CV) (h : l.Pairwise (fun a b => a._pos ≤ b._pos))
    (m i : Nat) (c a : CV) (hmi : m ≤ i) (hc : l[m]? = some c) (ha : l[i]? = some a) :
    c._pos ≤ a._pos := by
  obtain ⟨hm, rfl⟩ := List.getElem?_eq_some.mp hc
  obtain ⟨hi, rfl⟩ := List.getElem?_eq_some.mp ha
  rcases Nat.lt_or_eq_of_le hmi with hlt | heq
  · exact (List.pairwise_iff_getElem.mp h) m i hm hi hlt
  · subst heq; exact le_refl _

theorem hermite_left (t0 t1 y0 y1 m0 m1 : ℚ) : Curve.hermite t0 t1 y0 y1 m0 m1 t0 = y0 := by
  simp [Curve.hermite]

theorem segment_left (all : List CV) (i : Nat) (k0 k1 : CV) :
    Curve.segment all i k0 k1 k0._pos = k0._val := by
  unfold Curve.segment
  cases k1._interp <;> simp [hermite_left]

theorem evalFrom_at_knot (all : List CV) (x : ℚ) :
    ∀ (l : List CV) (i : Nat), l.Pairwise (fun a b => a._pos ≤ b._pos) →
      (∃ k ∈ l, k._pos = x) → ∃ k ∈ l, k._pos = x ∧ Curve.evalFrom all i l x = k._val
  | [], _, _, h => by
    obtain ⟨k, hk, -⟩ := h
    cases hk
  | [k0], i, _, h => by
    obtain ⟨k, hk, hx⟩ := h
    rw [List.mem_singleton] at hk
    subst hk
    exact ⟨k, List.mem_singleton.mpr rfl, hx, by simp [Curve.evalFrom]⟩
  | k0 :: k1 :: rest, i, hs, h => by
    have hs0 := List.pairwise_cons.mp hs
    by_cases hlt : x < k1._pos
    · obtain ⟨k, hk, hx⟩ := h
      have hk0 : k = k0 := by
        rcases List.mem_cons.mp hk with h0 | hk'
        · exact h0
        · exfalso
          have hle : k1._pos ≤ k._pos := by
            rcases List.mem_cons.mp hk' with h1 | hk''
            · rw [h1]
            · exact (List.pairwise_cons.mp hs0.2).1 k hk''
          linarith
      subst hk0
      refine ⟨k, List.mem_cons_self _ _, hx, ?_⟩
      rw [Curve.evalFrom, if_pos hlt, ← hx, segment_left]
    · have hge : k1._pos ≤ x := not_lt.mp hlt
      have hex : ∃ k ∈ k1 :: rest, k._pos = x := by
        obtain ⟨k, hk, hx⟩ := h
        rcases List.mem_cons.mp hk with h0 | hk'
        · have hle : k0._pos ≤ k1._pos := hs0.1 k1 (List.mem_cons_self _ _)
          rw [h0] at hx
          exact ⟨k1, List.mem_cons_self _ _, le_antisymm hge (hx ▸ hle)⟩
        · exact ⟨k, hk', hx⟩
      obtain ⟨k, hk, hx, he⟩ := evalFrom_at_knot all x (k1 :: rest) (i + 1) hs0.2 hex
      refine ⟨k, List.mem_cons_of_mem _ hk, hx, ?_⟩
      rw [Curve.evalFrom, if_neg hlt]
      exact he

theorem getValue_at_knot (c : Curve) (cv : CV)
    (hs : c._cvData.Pairwise (fun a b => a._pos ≤ b._pos)) (hmem : cv ∈ c._cvData) :
    ∃ k ∈ c._cvData, k._pos = cv._pos ∧ c.getValue cv._pos = k._val := by
  unfold Curve.getValue
  cases hd : c._cvData with
  | nil => rw [hd] at hmem; cases hmem
  | cons k0 rest =>
    rw [hd] at hmem hs
    have hle : k0._pos ≤ cv._pos := by
      rcases List.mem_cons.mp hmem with h0 | hk
      · rw [h0]
      · exact (List.pairwise_cons.mp hs).1 cv hk
    simp only [if_neg (not_lt.mpr hle)]
    exact evalFrom_at_knot (k0 :: rest) cv._pos (k0 :: rest) 0 hs ⟨cv, hmem, rfl⟩

theorem evalFrom_segment (all : List CV) (x : ℚ) :
    ∀ (l : List CV) (j k : Nat) (a b : CV), l[k]? = some a → l[k + 1]? = some b →
      (∀ (m : Nat) (c : CV), m ≤ k → l[m]? = some c → c._pos ≤ x) → x < b._pos →
      Curve.evalFrom all j l x = Curve.segment all (j + k) a b x
  | [], _, _, _, _, ha, _, _, _ => by simp at ha
  | [k0], _, k, _, _, _, hb, _, _ => by simp at hb
  | k0 :: k1 :: rest, j, 0, a, b, ha, hb, _, hx => by
    simp only [List.getElem?_cons_zero, Option.some.injEq] at ha
    simp only [Nat.zero_add, List.getElem?_cons_succ, List.getElem?_cons_zero,
      Option.some.injEq] at hb
    subst ha hb
    rw [Curve.evalFrom, if_pos hx, Nat.add_zero]
  | k0 :: k1 :: rest, j, k + 1, a, b, ha, hb, hle, hx => by
    have h1 : k1._pos ≤ x := hle 1 k1 (by omega) (by simp)
    rw [Curve.evalFrom, if_neg (not_lt.mpr h1)]
    rw [List.getElem?_cons_succ] at ha hb
    have := evalFrom_segment all x (k1 :: rest) (j + 1) k a b ha hb
      (fun m c hm hc => hle (m + 1) c (by omega) (by rw [List.getElem?_cons_succ]; exact hc)) hx
    rw [this]
    congr 1
    omega

theorem evalFrom_of_all_le (all : List CV) (x : ℚ) :
    ∀ (l : List CV) (i : Nat), (∀ k ∈ l, k._pos ≤ x) →
      Curve.evalFrom all i l x = ((l.getLast?).map (fun cv => cv._val)).getD 0
  | [], _, _ => by simp [Curve.evalFrom]
  | [k0], _, _ => by simp [Curve.evalFrom]
  | k0 :: k1 :: rest, i, h => by
    have h1 : k1._pos ≤ x := h k1 (by simp)
    rw [Curve.evalFrom, if_neg (not_lt.mpr h1), List.getLast?_cons_cons]
    exact evalFrom_of_all_le all x (k1 :: rest) (i + 1)
      (fun k hk => h k (List.mem_cons_of_mem _ hk))

/-- The worked scenarios of the spec's testable properties hold for the modelled
`getValue`: the three-CV `kMonotoneSpline` ramp and the two-CV `kNone` step. -/
theorem getValue_spec_scenarios :
    (0 < (buildCurve [⟨0, 0, InterpType.kMonotoneSpline⟩, ⟨1/2, 1, InterpType.kMonotoneSpline⟩,
          ⟨1, 0, InterpType.kMonotoneSpline⟩]).getValue (1/4)
      ∧ (buildCurve [⟨0, 0, InterpType.kMonotoneSpline⟩, ⟨1/2, 1, InterpType.kMonotoneSpline⟩,
          ⟨1, 0, InterpType.kMonotoneSpline⟩]).getValue (1/4) < 1
      ∧ (buildCurve [⟨0, 0, InterpType.kMonotoneSpline⟩, ⟨1/2, 1, InterpType.kMonotoneSpline⟩,
          ⟨1, 0, InterpType.kMonotoneSpline⟩]).getValue (-1) = 0
      ∧ (buildCurve [⟨0, 0, InterpType.kMonotoneSpline⟩, ⟨1/2, 1, InterpType.kMonotoneSpline⟩,
          ⟨1, 0, InterpType.kMonotoneSpline⟩]).getValue 2 = 0)
      ∧ ((buildCurve [⟨1/5, 5, InterpType.kNone⟩, ⟨4/5, 9, InterpType.kNone⟩]).getValue (1/10) = 5
      ∧ (buildCurve [⟨1/5, 5, InterpType.kNone⟩, ⟨4/5, 9, InterpType.kNone⟩]).getValue (1/5) = 5
      ∧ (buildCurve [⟨1/5, 5, InterpType.kNone⟩, ⟨4/5, 9, InterpType.kNone⟩]).getValue (79/100) = 5
      ∧ (buildCurve [⟨1/5, 5, InterpType.kNone⟩, ⟨4/5, 9, InterpType.kNone⟩]).getValue (4/5) = 9) := by
  decide!

/-! ### Monotone tangents and the Hermite segment -/

theorem clamp_bounds (x lo hi : ℚ) (h : lo ≤ hi) : lo ≤ clamp x lo hi ∧ clamp x lo hi ≤ hi := by
  unfold clamp
  split_ifs with h1 h2
  · exact ⟨le_refl _, h⟩
  · exact ⟨h, le_refl _⟩
  · exact ⟨not_lt.mp h1, not_lt.mp h2⟩

theorem limitSlope_some_between (d delta : ℚ) :
    (0 ≤ Curve.limitSlope d (some delta) ∧ Curve.limitSlope d (some delta) ≤ 3 * delta)
      ∨ (3 * delta ≤ Curve.limitSlope d (some delta) ∧ Curve.limitSlope d (some delta) ≤ 0) := by
  unfold Curve.limitSlope
  by_cases hz : delta = 0
  · left; simp [hz]
  · simp only [if_neg hz]
    obtain ⟨hc0, hc3⟩ := clamp_bounds (d / delta) 0 3 (by norm_num)
    rcases lt_or_gt_of_ne hz with hneg | hpos
    · right; constructor <;> nlinarith
    · left; constructor <;> nlinarith

theorem limitSlope_toward_zero (d : ℚ) (o : Option ℚ) :
    (0 ≤ Curve.limitSlope d o ∧ Curve.limitSlope d o ≤ d)
      ∨ (d ≤ Curve.limitSlope d o ∧ Curve.limitSlope d o ≤ 0) := by
  cases o with
  | none =>
    simp only [Curve.limitSlope]
    rcases le_total 0 d with h | h
    · exact Or.inl ⟨h, le_refl _⟩
    · exact Or.inr ⟨le_refl _, h⟩
  | some delta =>
    simp only [Curve.limitSlope]
    by_cases hz : delta = 0
    · simp only [if_pos hz]
      rcases le_total 0 d with h | h
      · exact Or.inl ⟨le_refl _, h⟩
      · exact Or.inr ⟨h, le_refl _⟩
    · simp only [if_neg hz]
      have hd : d = d / delta * delta := (div_mul_cancel₀ d hz).symm
      generalize d / delta = q at hd
      subst hd
      unfold clamp
      split_ifs with h1 h2
      · rcases lt_or_gt_of_ne hz with hneg | hpos
        · left; constructor <;> nlinarith
        · right; constructor <;> nlinarith
      · rcases lt_or_gt_of_ne hz with hneg | hpos
        · right; constructor <;> nlinarith
        · left; constructor <;> nlinarith
      · rcases le_total 0 (q * delta) with h | h
        · exact Or.inl ⟨h, le_refl _⟩
        · exact Or.inr ⟨le_refl _, h⟩

theorem between_trans (o n t : ℚ)
    (h1 : (0 ≤ o ∧ o ≤ n) ∨ (n ≤ o ∧ o ≤ 0)) (h2 : (0 ≤ n ∧ n ≤ t) ∨ (t ≤ n ∧ n ≤ 0)) :
    (0 ≤ o ∧ o ≤ t) ∨ (t ≤ o ∧ o ≤ 0) := by
  rcases h1 with ⟨a, b⟩ | ⟨a, b⟩ <;> rcases h2 with ⟨c, d⟩ | ⟨c, d⟩
  · exact Or.inl ⟨a, le_trans b d⟩
  · exact Or.inr ⟨by linarith, by linarith⟩
  · exact Or.inl ⟨by linarith, by linarith⟩
  · exact Or.inr ⟨le_trans c a, b⟩

theorem monotoneSlope_right_between (all : List CV) (i : Nat) (delta : ℚ)
    (h : Curve.secantSlope all i = some delta) :
    (0 ≤ Curve.monotoneSlope all i ∧ Curve.monotoneSlope all i ≤ 3 * delta)
      ∨ (3 * delta ≤ Curve.monotoneSlope all i ∧ Curve.monotoneSlope all i ≤ 0) := by
  unfold Curve.monotoneSlope
  rw [h]
  exact limitSlope_some_between _ delta

theorem monotoneSlope_left_between (all : List CV) (i : Nat) (delta : ℚ)
    (h : Curve.secantSlope all i = some delta) :
    (0 ≤ Curve.monotoneSlope all (i + 1) ∧ Curve.monotoneSlope all (i + 1) ≤ 3 * delta)
      ∨ (3 * delta ≤ Curve.monotoneSlope all (i + 1) ∧ Curve.monotoneSlope all (i + 1) ≤ 0) := by
  have hl : Curve.leftSecant all (i + 1) = some delta := by
    simp [Curve.leftSecant, h]
  unfold Curve.monotoneSlope
  rw [hl]
  exact between_trans _ _ _ (limitSlope_toward_zero _ _) (limitSlope_some_between _ delta)

theorem hermite_core (D A B u : ℚ) (hu0 : 0 ≤ u) (hu1 : u ≤ 1) (hA : 0 ≤ A ∧ A ≤ 3 * D)
    (hB : 0 ≤ B ∧ B ≤ 3 * D) :
    0 ≤ D * (u * u * (3 - 2 * u)) + A * (u * (1 - u) * (1 - u)) - B * (u * u * (1 - u))
      ∧ D * (u * u * (3 - 2 * u)) + A * (u * (1 - u) * (1 - u)) - B * (u * u * (1 - u)) ≤ D := by
  have hD : 0 ≤ D := by linarith [hA.1, hA.2]
  have hv : 0 ≤ 1 - u := by linarith
  have e1 : D * (u * u * (3 - 2 * u)) + A * (u * (1 - u) * (1 - u)) - B * (u * u * (1 - u))
      = D * (u * u * u) + A * (u * (1 - u) * (1 - u)) + (3 * D - B) * (u * u * (1 - u)) := by
    ring
  have e2 : D - (D * (u * u * (3 - 2 * u)) + A * (u * (1 - u) * (1 - u))
        - B * (u * u * (1 - u)))
      = D * ((1 - u) * (1 - u) * (1 - u)) + (3 * D - A) * (u * (1 - u) * (1 - u))
        + B * (u * u * (1 - u)) := by
    ring
  have p1 : 0 ≤ u * u * u := mul_nonneg (mul_nonneg hu0 hu0) hu0
  have p2 : 0 ≤ u * (1 - u) * (1 - u) := mul_nonneg (mul_nonneg hu0 hv) hv
  have p3 : 0 ≤ u * u * (1 - u) := mul_nonneg (mul_nonneg hu0 hu0) hv
  have p4 : 0 ≤ (1 - u) * (1 - u) * (1 - u) := mul_nonneg (mul_nonneg hv hv) hv
  constructor
  · rw [e1]
    have := mul_nonneg hD p1
    have := mul_nonneg hA.1 p2
    have := mul_nonneg (sub_nonneg.mpr hB.2) p3
    linarith
  · rw [← sub_nonneg, e2]
    have := mul_nonneg hD p4
    have := mul_nonneg (sub_nonneg.mpr hA.2) p2
    have := mul_nonneg hB.1 p3
    linarith

theorem hermite_between (t0 t1 y0 y1 m0 m1 x : ℚ) (h0 : t0 ≤ x) (h1 : x < t1)
    (hm0 : (0 ≤ m0 ∧ m0 ≤ 3 * ((y1 - y0) / (t1 - t0)))
      ∨ (3 * ((y1 - y0) / (t1 - t0)) ≤ m0 ∧ m0 ≤ 0))
    (hm1 : (0 ≤ m1 ∧ m1 ≤ 3 * ((y1 - y0) / (t1 - t0)))
      ∨ (3 * ((y1 - y0) / (t1 - t0)) ≤ m1 ∧ m1 ≤ 0)) :
    min y0 y1 ≤ Curve.hermite t0 t1 y0 y1 m0 m1 x
      ∧ Curve.hermite t0 t1 y0 y1 m0 m1 x ≤ max y0 y1 := by
  have hh : 0 < t1 - t0 := by linarith
  have hu0 : 0 ≤ (x - t0) / (t1 - t0) := div_nonneg (by linarith) hh.le
  have hu1 : (x - t0) / (t1 - t0) ≤ 1 := by
    rw [div_le_one hh]; linarith
  have hD : (y1 - y0) / (t1 - t0) * (t1 - t0) = y1 - y0 := div_mul_cancel₀ _ hh.ne'
  unfold Curve.hermite
  simp only
  generalize (x - t0) / (t1 - t0) = u at hu0 hu1
  generalize (y1 - y0) / (t1 - t0) = delta at hm0 hm1 hD
  rcases le_total 0 (y1 - y0) with hpos | hneg
  · have hdel : 0 ≤ delta := by
      by_contra hc
      have : delta * (t1 - t0) < 0 := mul_neg_of_neg_of_pos (not_le.mp hc) hh
      linarith
    have hA : 0 ≤ (t1 - t0) * m0 ∧ (t1 - t0) * m0 ≤ 3 * (y1 - y0) := by
      rcases hm0 with ⟨a, b⟩ | ⟨a, b⟩
      · exact ⟨mul_nonneg hh.le a, by nlinarith⟩
      · have hm : m0 = 0 := le_antisymm b (by linarith)
        rw [hm]; constructor <;> linarith
    have hB : 0 ≤ (t1 - t0) * m1 ∧ (t1 - t0) * m1 ≤ 3 * (y1 - y0) := by
      rcases hm1 with ⟨a, b⟩ | ⟨a, b⟩
      · exact ⟨mul_nonneg hh.le a, by nlinarith⟩
      · have hm : m1 = 0 := le_antisymm b (by linarith)
        rw [hm]; constructor <;> linarith
    obtain ⟨c1, c2⟩ := hermite_core (y1 - y0) ((t1 - t0) * m0) ((t1 - t0) * m1) u hu0 hu1 hA hB
    have hy : y0 ≤ y1 := by linarith
    rw [min_eq_left hy, max_eq_right hy]
    constructor <;> linarith
  · have hdel : delta ≤ 0 := by
      by_contra hc
      have : 0 < delta * (t1 - t0) := mul_pos (not_le.mp hc) hh
      linarith
    have hA : 0 ≤ -((t1 - t0) * m0) ∧ -((t1 - t0) * m0) ≤ 3 * -(y1 - y0) := by
      rcases hm0 with ⟨a, b⟩ | ⟨a, b⟩
      · have hm : m0 = 0 := le_antisymm (by linarith) a
        rw [hm]; constructor <;> linarith
      · constructor <;> nlinarith
    have hB : 0 ≤ -((t1 - t0) * m1) ∧ -((t1 - t0) * m1) ≤ 3 * -(y1 - y0) := by
      rcases hm1 with ⟨a, b⟩ | ⟨a, b⟩
      · have hm : m1 = 0 := le_antisymm (by linarith) a
        rw [hm]; constructor <;> linarith
      · constructor <;> nlinarith
    obtain ⟨c1, c2⟩ := hermite_core (-(y1 - y0)) (-((t1 - t0) * m0)) (-((t1 - t0) * m1)) u
      hu0 hu1 hA hB
    have hy : y1 ≤ y0 := by linarith
    rw [min_eq_right hy, max_eq_left hy]
    constructor <;> linarith

theorem sorted_head_min (l : List CV) (hs : l.Pairwise (fun a b => a._pos ≤ b._pos))
    (first : CV) (h : l.head? = some first) : ∀ k ∈ l, first._pos ≤ k._pos := by
  cases l with
  | nil => simp at h
  | cons k0 rest =>
    simp only [List.head?_cons, Option.some.injEq] at h
    subst h
    intro k hk
    rcases List.mem_cons.mp hk with h0 | hk'
    · rw [h0]
    · exact (List.pairwise_cons.mp hs).1 k hk'

theorem sorted_last_max (l : List CV) (hs : l.Pairwise (fun a b => a._pos ≤ b._pos))
    (last : CV) (h : l.getLast? = some last) : ∀ k ∈ l, k._pos ≤ last._pos := by
  obtain ⟨ys, rfl⟩ := List.getLast?_eq_some_iff.mp h
  intro k hk
  rcases List.mem_append.mp hk with hy | hl
  · exact (List.pairwise_append.mp hs).2.2 k hy last (List.mem_singleton.mpr rfl)
  · rw [List.mem_singleton.mp hl]

theorem getValue_before_first (c : Curve) (first : CV) (x : ℚ)
    (h : c._cvData.head? = some first) (hx : x < first._pos) : c.getValue x = first._val := by
  unfold Curve.getValue
  cases hd : c._cvData with
  | nil => rw [hd] at h; simp at h
  | cons k0 rest =>
    rw [hd] at h
    simp only [List.head?_cons, Option.some.injEq] at h
    subst h
    simp only [if_pos hx]

theorem getValue_from_last (c : Curve) (last : CV) (x : ℚ)
    (hs : c._cvData.Pairwise (fun a b => a._pos ≤ b._pos))
    (h : c._cvData.getLast? = some last) (hx : last._pos ≤ x) : c.getValue x = last._val := by
  have hall : ∀ k ∈ c._cvData, k._pos ≤ x :=
    fun k hk => le_trans (sorted_last_max _ hs last h k hk) hx
  unfold Curve.getValue
  cases hd : c._cvData with
  | nil => rw [hd] at h; simp at h
  | cons k0 rest =>
    rw [hd] at h hall
    have h0 : k0._pos ≤ x := hall k0 (List.mem_cons_self _ _)
    simp only [if_neg (not_lt.mpr h0)]
    rw [evalFrom_of_all_le _ x _ 0 hall, h]
    rfl

/-! ### Selection and button-state lemmas -/

theorem selPosChanged_shape (s s' : CurveScene) (p : ℚ) (h : selPosChanged s p = some s') :
    s'._lmb = s._lmb ∧ s'._selectedItem = s._selectedItem
      ∧ s'._cvs.length = s._cvs.length := by
  by_cases h0 : 0 ≤ s._selectedItem
  · by_cases h1 : s._selectedItem < s._cvs.length
    · obtain ⟨cv, -, he⟩ := selPosChanged_of_sel s p h0 h1
      rw [he] at h
      injection h with h
      subst h
      exact ⟨rfl, rfl, List.length_set _ _ _⟩
    · rw [selPosChanged_of_ge s p h0 (by omega)] at h
      exact Option.noConfusion h
  · rw [selPosChanged_of_neg s p (by omega)] at h
    injection h with h
    subst h
    exact ⟨rfl, rfl, rfl⟩

theorem selValChanged_shape (s s' : CurveScene) (v : ℚ) (h : selValChanged s v = some s') :
    s'._lmb = s._lmb ∧ s'._selectedItem = s._selectedItem
      ∧ s'._cvs.length = s._cvs.length := by
  by_cases h0 : 0 ≤ s._selectedItem
  · by_cases h1 : s._selectedItem < s._cvs.length
    · obtain ⟨cv, -, he⟩ := selValChanged_of_sel s v h0 h1
      rw [he] at h
      injection h with h
      subst h
      exact ⟨rfl, rfl, List.length_set _ _ _⟩
    · rw [selValChanged_of_ge s v h0 (by omega)] at h
      exact Option.noConfusion h
  · rw [selValChanged_of_neg s v (by omega)] at h
    injection h with h
    subst h
    exact ⟨rfl, rfl, rfl⟩

theorem interpChanged_shape (s s' : CurveScene) (m : InterpType) (h : interpChanged s m = some s') :
    s'._lmb = s._lmb ∧ s'._selectedItem = s._selectedItem
      ∧ s'._cvs.length = s._cvs.length := by
  by_cases h0 : 0 ≤ s._selectedItem
  · by_cases h1 : s._selectedItem < s._cvs.length
    · obtain ⟨cv, -, he⟩ := interpChanged_of_sel s m h0 h1
      rw [he] at h
      injection h with h
      subst h
      exact ⟨rfl, rfl, List.length_set _ _ _⟩
    · rw [interpChanged_of_ge s m h0 (by omega)] at h
      exact Option.noConfusion h
  · rw [interpChanged_of_neg s m (by omega)] at h
    injection h with h
    subst h
    exact ⟨rfl, rfl, rfl⟩

theorem mouseMoveEvent_shape (s s' : CurveScene) (e : MouseEvent)
    (h : mouseMoveEvent s e = some s') :
    s'._lmb = s._lmb ∧ s'._selectedItem = s._selectedItem
      ∧ s'._cvs.length = s._cvs.length := by
  cases hl : s._lmb with
  | false =>
    rw [mouseMoveEvent_of_not_lmb s e hl] at h
    injection h with h
    subst h
    exact ⟨hl.symm ▸ rfl, rfl, rfl⟩
  | true =>
    by_cases h0 : 0 ≤ s._selectedItem
    · by_cases h1 : s._selectedItem < s._cvs.length
      · obtain ⟨cv, -, he⟩ := mouseMoveEvent_of_sel s e hl h0 h1
        rw [he] at h
        injection h with h
        subst h
        exact ⟨hl, rfl, List.length_set _ _ _⟩
      · rw [mouseMoveEvent_of_ge s e hl h0 (by omega)] at h
        exact Option.noConfusion h
    · rw [mouseMoveEvent_of_neg s e (by omega)] at h
      injection h with h
      subst h
      exact ⟨hl.symm ▸ rfl, rfl, rfl⟩

theorem removePoint_shape (s s' : CurveScene) (i : Int) (h : removePoint s i = some s') :
    s'._lmb = s._lmb ∧ s'._selectedItem = -1 := by
  obtain ⟨-, h0, h1⟩ := removePoint_cvs s s' i h
  rw [removePoint_of_lt s i h0 h1] at h
  injection h with h
  subst h
  exact ⟨rfl, rfl⟩

theorem addPoint_shape (s : CurveScene) (x y : ℚ) (interp : InterpType) (select : Bool) :
    (addPoint s x y interp select)._lmb = s._lmb
      ∧ (SelValid s → SelValid (addPoint s x y interp select)) := by
  have hlen : (addPoint s x y interp select)._cvs.length = s._cvs.length + 1 := by
    rw [addPoint_cvs]; simp
  cases select with
  | true =>
    refine ⟨by simp [addPoint, drawPoints, drawPoly, rebuildCurve], fun _ => Or.inr ?_⟩
    rw [addPoint_selected, hlen]
    constructor <;> omega
  | false =>
    have hsel : (addPoint s x y interp false)._selectedItem = s._selectedItem := by
      simp [addPoint, drawPoints, drawPoly, rebuildCurve]
    refine ⟨by simp [addPoint, drawPoints, drawPoly, rebuildCurve], ?_⟩
    intro hv
    unfold SelValid at hv ⊢
    rw [hsel, hlen]
    rcases hv with hv | hv
    · exact Or.inl hv
    · exact Or.inr ⟨hv.1, by omega⟩

theorem mousePressEvent_shape (s s' : CurveScene) (e : MouseEvent)
    (hs : mousePressEvent s e = some s') :
    s'._lmb = true ∧ (SelValid s → SelValid s') := by
  obtain ⟨x, y, items, leftOnly⟩ := e
  cases items with
  | nothing =>
    simp [mousePressEvent, drawPoints, emit] at hs
    subst hs
    exact ⟨rfl, fun _ => Or.inl rfl⟩
  | circle i =>
    by_cases hi : i < s._circleObjects
    · cases hr : readAt s._cvs (i : Int) with
      | none => simp [mousePressEvent, hi, hr] at hs
      | some cv =>
        have hlt : (i : Int) < s._cvs.length := by
          by_contra hc
          rw [readAt_eq_none s._cvs i (Or.inr (by omega))] at hr
          exact Option.noConfusion hr
        simp [mousePressEvent, hi, hr, drawPoints, emit] at hs
        subst hs
        exact ⟨rfl, fun _ => Or.inr ⟨Int.natCast_nonneg _, hlt⟩⟩
    · simp [mousePressEvent, hi, drawPoints] at hs
      subst hs
      exact ⟨rfl, fun hv => hv⟩
  | background =>
    cases leftOnly with
    | true =>
      rw [mousePressEvent_create] at hs
      injection hs with hs
      subst hs
      refine ⟨?_, fun _ => Or.inr ?_⟩
      · show (addPoint _ _ _ _ _)._lmb = true
        rw [(addPoint_shape _ _ _ _ _).1]
      · show 0 ≤ (addPoint _ _ _ _ addPointSelectDefault)._selectedItem
          ∧ (addPoint _ _ _ _ addPointSelectDefault)._selectedItem
            < ((addPoint _ _ _ _ addPointSelectDefault)._cvs.length : Int)
        rw [show addPointSelectDefault = true from rfl, addPoint_selected, addPoint_cvs]
        simp
    | false =>
      simp [mousePressEvent, drawPoints] at hs
      subst hs
      exact ⟨rfl, fun _ => Or.inl rfl⟩

theorem step_pressed (s s' : CurveScene) (op : Op) (hs : step s op = some s') :
    s'._lmb = pressedStep s._lmb op := by
  cases op with
  | addPoint x y interp select =>
    simp only [step, Option.some.injEq] at hs
    subst hs
    exact (addPoint_shape s x y interp select).1
  | removePoint index => exact (removePoint_shape s s' index hs).1
  | removeAll =>
    simp only [step, Option.some.injEq] at hs
    subst hs; rfl
  | resize width height =>
    simp only [step, Option.some.injEq] at hs
    subst hs; rfl
  | keyPressEvent key =>
    simp only [step, keyPressEvent] at hs
    split_ifs at hs
    · exact (removePoint_shape s s' _ hs).1
    · injection hs with hs; subst hs; rfl
  | mousePressEvent e => exact (mousePressEvent_shape s s' e hs).1
  | contextMenuEvent b =>
    simp only [step, contextMenuEvent] at hs
    split_ifs at hs
    · exact (removePoint_shape s s' _ hs).1
    · injection hs with hs; subst hs; rfl
    · injection hs with hs; subst hs; rfl
  | mouseMoveEvent e => exact (mouseMoveEvent_shape s s' e hs).1
  | mouseReleaseEvent =>
    simp only [step, Option.some.injEq] at hs
    subst hs; rfl
  | interpChanged m => exact (interpChanged_shape s s' m hs).1
  | selPosChanged p => exact (selPosChanged_shape s s' p hs).1
  | selValChanged v => exact (selValChanged_shape s s' v hs).1

theorem run_pressed (ops : List Op) (s s' : CurveScene) (hs : run s ops = some s') :
    s'._lmb = pressedAfter s._lmb ops := by
  induction ops generalizing s with
  | nil =>
    simp only [run, Option.some.injEq] at hs
    subst hs; rfl
  | cons op ops ih =>
    simp only [run] at hs
    cases hstep : step s op with
    | none => simp [hstep] at hs
    | some s1 =>
      simp only [hstep] at hs
      rw [ih s1 hs, step_pressed s s1 op hstep]
      rfl

theorem pressedAfter_false_of_no_press (ops : List Op)
    (h : ∀ op ∈ ops, op.isPress = false) : pressedAfter false ops = false := by
  induction ops with
  | nil => rfl
  | cons op ops ih =>
    have hop : pressedStep false op = false := by
      have := h op (List.mem_cons_self _ _)
      cases op <;> simp_all [pressedStep, Op.isPress]
    show pressedAfter (pressedStep false op) ops = false
    rw [hop]
    exact ih (fun o ho => h o (List.mem_cons_of_mem _ ho))

theorem SelValid_of_same (s s' : CurveScene) (h1 : s'._selectedItem = s._selectedItem)
    (h2 : s'._cvs.length = s._cvs.length) (hv : SelValid s) : SelValid s' := by
  unfold SelValid at hv ⊢
  rw [h1, h2]
  exact hv

theorem SelValid_step (s s' : CurveScene) (op : Op) (hop : op ≠ Op.removeAll)
    (hv : SelValid s) (hs : step s op = some s') : SelValid s' := by
  cases op with
  | addPoint x y interp select =>
    simp only [step, Option.some.injEq] at hs
    subst hs
    exact (addPoint_shape s x y interp select).2 hv
  | removePoint index => exact Or.inl (removePoint_shape s s' index hs).2
  | removeAll => exact absurd rfl hop
  | resize width height =>
    simp only [step, Option.some.injEq] at hs
    subst hs; exact hv
  | keyPressEvent key =>
    simp only [step, keyPressEvent] at hs
    split_ifs at hs
    · exact Or.inl (removePoint_shape s s' _ hs).2
    · injection hs with hs; subst hs; exact hv
  | mousePressEvent e => exact (mousePressEvent_shape s s' e hs).2 hv
  | contextMenuEvent b =>
    simp only [step, contextMenuEvent] at hs
    split_ifs at hs
    · exact Or.inl (removePoint_shape s s' _ hs).2
    · injection hs with hs; subst hs; exact hv
    · injection hs with hs; subst hs; exact hv
  | mouseMoveEvent e =>
    obtain ⟨-, h1, h2⟩ := mouseMoveEvent_shape s s' e hs
    exact SelValid_of_same s s' h1 h2 hv
  | mouseReleaseEvent =>
    simp only [step, Option.some.injEq] at hs
    subst hs; exact hv
  | interpChanged m =>
    obtain ⟨-, h1, h2⟩ := interpChanged_shape s s' m hs
    exact SelValid_of_same s s' h1 h2 hv
  | selPosChanged p =>
    obtain ⟨-, h1, h2⟩ := selPosChanged_shape s s' p hs
    exact SelValid_of_same s s' h1 h2 hv
  | selValChanged v =>
    obtain ⟨-, h1, h2⟩ := selValChanged_shape s s' v hs
    exact SelValid_of_same s s' h1 h2 hv

/-- Without `removeAll`, every reachable scene has a valid selection: `removeAll`
is the only operation that can leave `_selectedItem` pointing outside `_cvs`. -/
theorem SelValid_run_without_removeAll (ops : List Op) (s s' : CurveScene)
    (hno : Op.removeAll ∉ ops) (hv : SelValid s) (hs : run s ops = some s') :
    SelValid s' := by
  induction ops generalizing s with
  | nil =>
    simp only [run, Option.some.injEq] at hs
    subst hs; exact hv
  | cons op ops ih =>
    simp only [run] at hs
    cases hstep : step s op with
    | none => simp [hstep] at hs
    | some s1 =>
      simp only [hstep] at hs
      have hne : op ≠ Op.removeAll := fun hc => hno (hc ▸ List.mem_cons_self _ _)
      exact ih s1 (fun hc => hno (List.mem_cons_of_mem _ hc))
        (SelValid_step s s1 op hne hv hstep) hs

/-! ## Claims -/

/-- C1: `addPoint(x, y, interp, select)` always succeeds; the stored list becomes
the old list followed by the single CV `(clamp(x,0,1), clamp(y,0,1), interp)`, so
the old CVs keep their places, the new CV sits at the index equal to the old
length, and its position and value lie in `[0,1]` whatever `x` and `y` were. -/
theorem addPoint_appends_clamped (s : CurveScene) (x y : ℚ) (interp : InterpType)
    (select : Bool) :
    (addPoint s x y interp select)._cvs
        = s._cvs ++ [⟨clamp x 0 1, clamp y 0 1, interp⟩]
      ∧ (addPoint s x y interp select)._cvs.length = s._cvs.length + 1
      ∧ (addPoint s x y interp select)._cvs.take s._cvs.length = s._cvs
      ∧ (addPoint s x y interp select)._cvs[s._cvs.length]?
          = some ⟨clamp x 0 1, clamp y 0 1, interp⟩
      ∧ (0 ≤ clamp x 0 1 ∧ clamp x 0 1 ≤ 1)
      ∧ (0 ≤ clamp y 0 1 ∧ clamp y 0 1 ≤ 1) := by
  rw [addPoint_cvs]
  refine ⟨rfl, by simp, by simp, by simp, clamp_unit_bounds x, clamp_unit_bounds y⟩

/-- C2: in every scene reached from the freshly constructed (empty) scene by any
sequence of scene operations (`addPoint`, `removePoint`, mouse press, move and
release, `selPosChanged`, `selValChanged`, `interpChanged`, and also `removeAll`,
`resize`, key presses and the context menu), every stored CV has position in
`[0,1]` and value in `[0,1]`. -/
theorem cvs_stay_in_unit_square (ops : List Op) (s' : CurveScene)
    (h : run CurveScene.new ops = some s') : CVsInRange s'._cvs := by
  refine CVsInRange_run ops CurveScene.new s' ?_ h
  intro cv hcv
  simp [CurveScene.new, resize, drawPoints, drawPoly, drawRect, rebuildCurve] at hcv

/-- C2 (witness): a press that creates a point, a drag far outside the curve
area, typed-in position 7 and value -3, and a further `addPoint(3, -1)` reach a
scene, and its CVs lie in the unit square. -/
theorem cvs_stay_in_unit_square_witness :
    ∃ s', run CurveScene.new
        [Op.mousePressEvent ⟨500, 100, Hit.background, true⟩,
         Op.mouseMoveEvent ⟨-20, 17, Hit.nothing, true⟩,
         Op.selPosChanged 7, Op.selValChanged (-3),
         Op.addPoint 3 (-1) InterpType.kLinear false,
         Op.interpChanged InterpType.kSmooth] = some s'
      ∧ CVsInRange s'._cvs :=
  match h : run CurveScene.new
        [Op.mousePressEvent ⟨500, 100, Hit.background, true⟩,
         Op.mouseMoveEvent ⟨-20, 17, Hit.nothing, true⟩,
         Op.selPosChanged 7, Op.selValChanged (-3),
         Op.addPoint 3 (-1) InterpType.kLinear false,
         Op.interpChanged InterpType.kSmooth] with
  | some s' => ⟨s', rfl, cvs_stay_in_unit_square _ s' h⟩
  | none => absurd h (by decide!)

/-- C3 (counterexample): on a scene holding one CV, `removePoint(1)` and
`removePoint(-1)` are not silent no-ops: the unchecked erase gives them no
outcome at all, in particular not the unchanged scene. -/
theorem removePoint_out_of_range_not_noop :
    removePoint (addPoint CurveScene.new (1/2) (1/2) InterpType.kLinear true) 1 = none
      ∧ removePoint (addPoint CurveScene.new (1/2) (1/2) InterpType.kLinear true) 1
          ≠ some (addPoint CurveScene.new (1/2) (1/2) InterpType.kLinear true)
      ∧ removePoint (addPoint CurveScene.new (1/2) (1/2) InterpType.kLinear true) (-1) = none := by
  refine ⟨?_, ?_, ?_⟩
  · rw [removePoint_eq_none_iff, addPoint_cvs]; right; simp [CurveScene.new, resize, drawPoints,
      drawPoly, drawRect, rebuildCurve]
  · intro h
    have hn : removePoint (addPoint CurveScene.new (1/2) (1/2) InterpType.kLinear true) 1 = none := by
      rw [removePoint_eq_none_iff, addPoint_cvs]; right; simp [CurveScene.new, resize, drawPoints,
        drawPoly, drawRect, rebuildCurve]
    rw [hn] at h
    exact Option.noConfusion h
  · rw [removePoint_eq_none_iff]; left; decide

/-- C3 (amended): `removePoint(index)` performs no range check; it has an
outcome exactly when `0 <= index < number of CVs`, and for every out-of-range
index (negative or at least the number of CVs) it has none. -/
theorem removePoint_defined_iff_in_range (s : CurveScene) (index : Int) :
    ((∃ s', removePoint s index = some s') ↔ (0 ≤ index ∧ index < s._cvs.length))
      ∧ (removePoint s index = none ↔ (index < 0 ∨ (s._cvs.length : Int) ≤ index)) := by
  refine ⟨?_, removePoint_eq_none_iff s index⟩
  constructor
  · rintro ⟨s', hs'⟩
    by_contra hc
    have : removePoint s index = none := (removePoint_eq_none_iff s index).2 (by omega)
    rw [this] at hs'
    exact Option.noConfusion hs'
  · rintro ⟨h0, h1⟩
    exact ⟨_, removePoint_of_lt s index h0 h1⟩

/-- Insertion followed by removal, on any scene: `addPoint` followed by
`removePoint` on the index of the point just added (the old length) succeeds and
restores the stored CV list exactly; the rebuilt curve is the curve built from
that list, whatever the derived curve was before the insertion. -/
theorem addPoint_removePoint_restores (s : CurveScene) (x y : ℚ) (interp : InterpType)
    (select : Bool) :
    ∃ s', removePoint (addPoint s x y interp select) s._cvs.length = some s'
      ∧ s'._cvs = s._cvs
      ∧ s'._curve = (rebuildCurve s)._curve
      ∧ ∀ (getValue : Curve → ℚ → ℚ) (t : ℚ),
          getValue s'._curve t = getValue (rebuildCurve s)._curve t := by
  have hlen : ((s._cvs.length : Int)) < (addPoint s x y interp select)._cvs.length := by
    rw [addPoint_cvs]; simp
  have h0 : (0 : Int) ≤ s._cvs.length := Int.natCast_nonneg _
  have he : (addPoint s x y interp select)._cvs.eraseIdx (s._cvs.length : Int).toNat = s._cvs := by
    rw [addPoint_cvs, Int.toNat_natCast, eraseIdx_length_append_singleton]
  refine ⟨_, removePoint_of_lt _ _ h0 hlen, ?_, ?_, ?_⟩
  · exact he
  · show buildCurve _ = buildCurve s._cvs
    rw [he]
  · intro getValue t
    show getValue (buildCurve _) t = getValue (buildCurve s._cvs) t
    rw [he]

/-- Insertion followed by removal, on a scene whose derived curve is built from
its stored CVs: the derived curve afterwards is the pre-insertion curve, so both
evaluate alike at every `x`. -/
theorem addPoint_removePoint_restores_inSync (s : CurveScene) (x y : ℚ)
    (interp : InterpType) (select : Bool) (hsync : InSync s) :
    ∃ s', removePoint (addPoint s x y interp select) s._cvs.length = some s'
      ∧ s'._cvs = s._cvs
      ∧ s'._curve = s._curve
      ∧ ∀ t : ℚ, s'._curve.getValue t = s._curve.getValue t := by
  obtain ⟨s', hs, hc, hcurve, -⟩ := addPoint_removePoint_restores s x y interp select
  have he : s'._curve = s._curve := by
    rw [hcurve]
    exact hsync.symm
  exact ⟨s', hs, hc, he, fun t => by rw [he]⟩

/-- C4 (the code at the failing input): the scene reached from the fresh one by
`addPoint(1/2, 1/2, kLinear)` and `removeAll` stores no CV; `addPoint(1/4, 1/4)`
followed by `removePoint(0)`, the index of the point just added, restores the
empty list, yet the pre-insertion curve evaluates to `1/2` at `x = 0` and the
rebuilt curve to `0`. -/
theorem addPoint_removePoint_after_removeAll :
    run CurveScene.new [Op.addPoint (1/2) (1/2) InterpType.kLinear false, Op.removeAll]
        = some (removeAll (addPoint CurveScene.new (1/2) (1/2) InterpType.kLinear false))
      ∧ ((removeAll (addPoint CurveScene.new (1/2) (1/2) InterpType.kLinear
            false))._cvs.length : Int) = 0
      ∧ ∃ s', removePoint
            (addPoint (removeAll (addPoint CurveScene.new (1/2) (1/2) InterpType.kLinear false))
              (1/4) (1/4) InterpType.kSmooth false) 0 = some s'
          ∧ s'._cvs
              = (removeAll (addPoint CurveScene.new (1/2) (1/2) InterpType.kLinear false))._cvs
          ∧ (removeAll (addPoint CurveScene.new (1/2) (1/2) InterpType.kLinear
              false))._curve.getValue 0 = 1/2
          ∧ s'._curve.getValue 0 = 0
          ∧ s'._curve
              ≠ (removeAll (addPoint CurveScene.new (1/2) (1/2) InterpType.kLinear
                  false))._curve := by
  refine ⟨rfl, by decide, ?_⟩
  refine ⟨_, removePoint_of_lt _ 0 (by decide) (by decide), ?_, ?_, ?_, ?_⟩
  · decide!
  · decide!
  · decide!
  · decide!

/-- C5: with a CV selected, `selPosChanged(p)` succeeds, and for every `p > 1`
it produces exactly the scene (hence the stored CV list) that `selPosChanged(1)`
produces; for every `p < 0`, the one `selPosChanged(0)` produces. -/
theorem selPosChanged_clamp_idempotent (s : CurveScene) (p : ℚ)
    (h0 : 0 ≤ s._selectedItem) (h1 : s._selectedItem < s._cvs.length) :
    (∃ s', selPosChanged s p = some s')
      ∧ (1 < p → selPosChanged s p = selPosChanged s 1)
      ∧ (p < 0 → selPosChanged s p = selPosChanged s 0) := by
  refine ⟨?_, ?_, ?_⟩
  · obtain ⟨cv, -, he⟩ := selPosChanged_of_sel s p h0 h1
    exact ⟨_, he⟩
  · intro hp
    simp only [selPosChanged, clamp_of_gt_one p hp]
  · intro hp
    simp only [selPosChanged, clamp_of_lt_zero p hp]

/-- C5 (witness): on the scene holding the selected CV `(1/2, 1/2)`, position 3
is stored like position 1 and position -2 like position 0. -/
theorem selPosChanged_clamp_idempotent_witness :
    selPosChanged (addPoint CurveScene.new (1/2) (1/2) InterpType.kLinear true) 3
        = selPosChanged (addPoint CurveScene.new (1/2) (1/2) InterpType.kLinear true) 1
      ∧ selPosChanged (addPoint CurveScene.new (1/2) (1/2) InterpType.kLinear true) (-2)
        = selPosChanged (addPoint CurveScene.new (1/2) (1/2) InterpType.kLinear true) 0 :=
  ⟨(selPosChanged_clamp_idempotent _ 3 (by decide) (by decide)).2.1 (by norm_num),
   (selPosChanged_clamp_idempotent _ (-2) (by decide) (by decide)).2.2 (by norm_num)⟩

/-- Creating a point by click, on any scene: a left-button press on the curve
area (not on a circle item) succeeds and appends the CV whose mode `m` is the
mode the derived curve reports for the lower-bound CV at the clamped click
position, with `kNone` replaced by `kMonotoneSpline`; so `m` is never `kNone`,
and when the derived curve is the one built from no CVs, `m` is
`kMonotoneSpline`. The mode is read from the derived curve, not from the stored
list. -/
theorem createAt_inherits_interp (s : CurveScene) (x y : ℚ) :
    ∃ s' m, mousePressEvent s ⟨x, y, Hit.background, true⟩ = some s'
      ∧ s'._cvs = s._cvs ++ [⟨clamp (x / s._width) 0 1, clamp (y / s._height) 0 1, m⟩]
      ∧ m = (if s._curve.lowerBoundInterp (clamp (x / s._width) 0 1) = InterpType.kNone
              then InterpType.kMonotoneSpline
              else s._curve.lowerBoundInterp (clamp (x / s._width) 0 1))
      ∧ m ≠ InterpType.kNone
      ∧ (s._curve = buildCurve [] → m = InterpType.kMonotoneSpline) := by
  refine ⟨_, _, mousePressEvent_create s x y, ?_, rfl, ?_, ?_⟩
  · show (addPoint _ _ _ _ _)._cvs = _
    rw [addPoint_cvs]
  · split_ifs with h
    · decide
    · exact h
  · intro hc
    rw [hc, lowerBoundInterp_buildCurve_nil]
    simp

/-- Creating a point by click on the freshly constructed scene: a click at scene
position `(100, 20)` creates the single CV `(25/76, 10/17)` with mode
`kMonotoneSpline`. -/
theorem createAt_inherits_interp_witness :
    ∃ s', mousePressEvent CurveScene.new ⟨100, 20, Hit.background, true⟩ = some s'
      ∧ s'._cvs = [⟨25/76, 10/17, InterpType.kMonotoneSpline⟩] := by
  obtain ⟨s', m, hs, hc, -, -, hm⟩ := createAt_inherits_interp CurveScene.new 100 20
  refine ⟨s', hs, ?_⟩
  rw [hc, hm (by decide)]
  simp [CurveScene.new, resize, drawPoints, drawPoly, drawRect, rebuildCurve, clamp]
  norm_num

/-- C7: after a left-button press on the curve area the selected index is the
number of CVs before the press, which is the index of the created CV and a valid
index into the new list. -/
theorem createAt_selects_new (s : CurveScene) (x y : ℚ) :
    ∃ s', mousePressEvent s ⟨x, y, Hit.background, true⟩ = some s'
      ∧ s'._selectedItem = s._cvs.length
      ∧ s'._cvs.length = s._cvs.length + 1
      ∧ 0 ≤ s'._selectedItem
      ∧ s'._selectedItem < s'._cvs.length
      ∧ (s'._cvs[s'._selectedItem.toNat]?).isSome = true := by
  refine ⟨_, mousePressEvent_create s x y, ?_⟩
  generalize hs : emitCurveChanged (addPoint { s with _lmb := true } (x / s._width)
    (y / s._height) _ addPointSelectDefault) = s'
  have hsel : s'._selectedItem = s._cvs.length := by
    subst hs
    show (addPoint _ _ _ _ addPointSelectDefault)._selectedItem = _
    exact addPoint_selected _ _ _ _
  have hc : s'._cvs = s._cvs ++ [⟨clamp (x / s._width) 0 1, clamp (y / s._height) 0 1,
      if s._curve.lowerBoundInterp (clamp (x / s._width) 0 1) = InterpType.kNone
        then InterpType.kMonotoneSpline
        else s._curve.lowerBoundInterp (clamp (x / s._width) 0 1)⟩] := by
    subst hs
    show (addPoint _ _ _ _ _)._cvs = _
    rw [addPoint_cvs]
  have hlen : s'._cvs.length = s._cvs.length + 1 := by rw [hc]; simp
  refine ⟨hsel, hlen, ?_, ?_, ?_⟩
  · rw [hsel]; exact Int.natCast_nonneg _
  · rw [hsel, hlen]; omega
  · rw [hsel, Int.toNat_natCast, hc]; simp

/-- C8: for the Backspace and Delete keys, when nothing is selected the press
returns the scene unchanged (CV list, selection, curve and emission log); when CV
`i` is selected, the press succeeds, the list becomes the old one with exactly
the `i`-th entry erased, and the selection becomes `-1`. -/
theorem deleteSelected_effect (s : CurveScene) (key : Key)
    (hk : key = Key.Key_Backspace ∨ key = Key.Key_Delete) :
    (s._selectedItem < 0 → keyPressEvent s key = some s)
      ∧ (0 ≤ s._selectedItem → s._selectedItem < s._cvs.length →
          ∃ s', keyPressEvent s key = some s'
            ∧ s'._cvs = s._cvs.eraseIdx s._selectedItem.toNat
            ∧ s'._cvs.length + 1 = s._cvs.length
            ∧ s'._selectedItem = -1) := by
  refine ⟨keyPressEvent_of_neg s key, ?_⟩
  intro h0 h1
  rw [keyPressEvent_delete s key hk h0]
  refine ⟨_, removePoint_of_lt s _ h0 h1, rfl, ?_, rfl⟩
  have hlt : s._selectedItem.toNat < s._cvs.length := by omega
  show (s._cvs.eraseIdx s._selectedItem.toNat).length + 1 = s._cvs.length
  rw [List.length_eraseIdx, if_pos hlt]
  omega

/-- C8 (witness): Delete on the fresh scene (nothing selected) changes nothing;
Delete after creating one selected CV leaves the empty list and no selection. -/
theorem deleteSelected_effect_witness :
    keyPressEvent CurveScene.new Key.Key_Delete = some CurveScene.new
      ∧ ∃ s', keyPressEvent (addPoint CurveScene.new (1/2) (1/2) InterpType.kLinear true)
            Key.Key_Delete = some s'
          ∧ s'._cvs = (addPoint CurveScene.new (1/2) (1/2) InterpType.kLinear true)._cvs.eraseIdx 0
          ∧ s'._selectedItem = -1 := by
  refine ⟨(deleteSelected_effect CurveScene.new Key.Key_Delete (Or.inr rfl)).1 (by decide), ?_⟩
  obtain ⟨s', hs, hc, -, hsel⟩ :=
    (deleteSelected_effect (addPoint CurveScene.new (1/2) (1/2) InterpType.kLinear true)
      Key.Key_Delete (Or.inr rfl)).2 (by decide) (by decide)
  exact ⟨s', hs, hc, hsel⟩

/-- C9: a mouse move with nothing selected returns the scene unchanged; a drag
(button held) with CV `i` selected succeeds and stores at index `i` the CV with
position `clamp(x / _width, 0, 1)`, value `clamp(y / _height, 0, 1)` and the old
interpolation mode of CV `i`; every other index keeps its CV, and the list
length and the selected index are unchanged, wherever the new position falls
relative to the other CVs. -/
theorem moveSelected_frame (s : CurveScene) (e : MouseEvent) :
    (s._selectedItem < 0 → mouseMoveEvent s e = some s)
      ∧ (s._lmb = true → 0 ≤ s._selectedItem → s._selectedItem < s._cvs.length →
          ∃ s' cv, mouseMoveEvent s e = some s'
            ∧ s._cvs[s._selectedItem.toNat]? = some cv
            ∧ s'._cvs = s._cvs.set s._selectedItem.toNat
                ⟨clamp (e.x / s._width) 0 1, clamp (e.y / s._height) 0 1, cv._interp⟩
            ∧ s'._cvs[s._selectedItem.toNat]?
                = some ⟨clamp (e.x / s._width) 0 1, clamp (e.y / s._height) 0 1, cv._interp⟩
            ∧ (∀ j : Nat, j ≠ s._selectedItem.toNat → s'._cvs[j]? = s._cvs[j]?)
            ∧ s'._cvs.length = s._cvs.length
            ∧ s'._selectedItem = s._selectedItem) := by
  refine ⟨mouseMoveEvent_of_neg s e, ?_⟩
  intro hl h0 h1
  obtain ⟨cv, hg, he⟩ := mouseMoveEvent_of_sel s e hl h0 h1
  have hlt : s._selectedItem.toNat < s._cvs.length := by omega
  refine ⟨_, cv, he, hg, rfl, ?_, ?_, ?_, rfl⟩
  · show (s._cvs.set _ _)[_]? = _
    simp [hlt]
  · intro j hj
    show (s._cvs.set _ _)[j]? = _
    exact List.getElem?_set_ne (Ne.symm hj)
  · show (s._cvs.set _ _).length = _
    simp

/-- C9 (witness): after adding `(1/5, 0, kLinear)` selected and `(4/5, 1, kSmooth)`,
with the button held, dragging to scene position `(456, 17)` stores `(1, 1/2)`
at index 0, past its neighbour, which stays at index 1; moving on the fresh
scene changes nothing. -/
theorem moveSelected_frame_witness :
    mouseMoveEvent CurveScene.new ⟨456, 17, Hit.nothing, true⟩ = some CurveScene.new
      ∧ ∃ s', mouseMoveEvent
            { addPoint (addPoint CurveScene.new (1/5) 0 InterpType.kLinear true)
                (4/5) 1 InterpType.kSmooth false with _lmb := true }
            ⟨456, 17, Hit.nothing, true⟩ = some s'
          ∧ s'._cvs = [⟨1, 1/2, InterpType.kLinear⟩, ⟨4/5, 1, InterpType.kSmooth⟩]
          ∧ s'._selectedItem = 0 := by
  refine ⟨(moveSelected_frame CurveScene.new ⟨456, 17, Hit.nothing, true⟩).1 (by decide), ?_⟩
  obtain ⟨s', cv, hs, hg, hc, -, -, -, hsel⟩ :=
    (moveSelected_frame
      { addPoint (addPoint CurveScene.new (1/5) 0 InterpType.kLinear true)
          (4/5) 1 InterpType.kSmooth false with _lmb := true }
      ⟨456, 17, Hit.nothing, true⟩).2 rfl (by decide) (by decide)
  have hcvs : (addPoint (addPoint CurveScene.new (1/5) 0 InterpType.kLinear true)
      (4/5) 1 InterpType.kSmooth false)._cvs
        = [⟨1/5, 0, InterpType.kLinear⟩, ⟨4/5, 1, InterpType.kSmooth⟩] := by decide!
  have hsel0 : (addPoint (addPoint CurveScene.new (1/5) 0 InterpType.kLinear true)
      (4/5) 1 InterpType.kSmooth false)._selectedItem = 0 := by decide
  have hw : (addPoint (addPoint CurveScene.new (1/5) 0 InterpType.kLinear true)
      (4/5) 1 InterpType.kSmooth false)._width = 304 := by decide
  have hh : (addPoint (addPoint CurveScene.new (1/5) 0 InterpType.kLinear true)
      (4/5) 1 InterpType.kSmooth false)._height = 34 := by decide
  simp only [hcvs, hsel0, hw, hh] at hg hc hsel
  refine ⟨s', hs, ?_, hsel⟩
  rw [hc]
  simp at hg
  subst hg
  simp [clamp]
  norm_num

/-- C10: `interpChanged(mode)` with nothing selected succeeds and leaves the CV
list, the derived curve, the selection and the emission log unchanged; with CV
`i` selected it succeeds and stores at index `i` the CV with the old position and
value and mode `mode`, every other index keeping its CV. -/
theorem setSelectedInterp_frame (s : CurveScene) (mode : InterpType) :
    (s._selectedItem < 0 →
        ∃ s', interpChanged s mode = some s'
          ∧ s'._cvs = s._cvs ∧ s'._curve = s._curve
          ∧ s'._selectedItem = s._selectedItem ∧ s'.emitted = s.emitted)
      ∧ (0 ≤ s._selectedItem → s._selectedItem < s._cvs.length →
          ∃ s' cv, interpChanged s mode = some s'
            ∧ s._cvs[s._selectedItem.toNat]? = some cv
            ∧ s'._cvs = s._cvs.set s._selectedItem.toNat ⟨cv._pos, cv._val, mode⟩
            ∧ s'._cvs[s._selectedItem.toNat]? = some ⟨cv._pos, cv._val, mode⟩
            ∧ (∀ j : Nat, j ≠ s._selectedItem.toNat → s'._cvs[j]? = s._cvs[j]?)
            ∧ s'._cvs.length = s._cvs.length) := by
  refine ⟨fun h => ⟨_, interpChanged_of_neg s mode h, rfl, rfl, rfl, rfl⟩, ?_⟩
  intro h0 h1
  obtain ⟨cv, hg, he⟩ := interpChanged_of_sel s mode h0 h1
  have hlt : s._selectedItem.toNat < s._cvs.length := by omega
  refine ⟨_, cv, he, hg, rfl, ?_, ?_, ?_⟩
  · show (s._cvs.set _ _)[_]? = _
    simp [hlt]
  · intro j hj
    show (s._cvs.set _ _)[j]? = _
    exact List.getElem?_set_ne (Ne.symm hj)
  · show (s._cvs.set _ _).length = _
    simp

/-- C10 (witness): on the fresh scene choosing `kLinear` leaves the empty list
and emits nothing; after adding `(1/5, 0, kNone)` and then `(4/5, 1, kSmooth)`
selected, it stores `(4/5, 1, kLinear)` at index 1 and leaves the first CV alone. -/
theorem setSelectedInterp_frame_witness :
    (∃ s', interpChanged CurveScene.new InterpType.kLinear = some s'
        ∧ s'._cvs = [] ∧ s'.emitted = [])
      ∧ ∃ s', interpChanged
            (addPoint (addPoint CurveScene.new (1/5) 0 InterpType.kNone false)
              (4/5) 1 InterpType.kSmooth true)
            InterpType.kLinear = some s'
          ∧ s'._cvs = [⟨1/5, 0, InterpType.kNone⟩, ⟨4/5, 1, InterpType.kLinear⟩] := by
  constructor
  · obtain ⟨s', hs, hc, -, -, he⟩ :=
      (setSelectedInterp_frame CurveScene.new InterpType.kLinear).1 (by decide)
    exact ⟨s', hs, hc, he⟩
  · obtain ⟨s', cv, hs, hg, hc, -, -, -⟩ :=
      (setSelectedInterp_frame
        (addPoint (addPoint CurveScene.new (1/5) 0 InterpType.kNone false)
          (4/5) 1 InterpType.kSmooth true)
        InterpType.kLinear).2 (by decide) (by decide)
    have hsel : (addPoint (addPoint CurveScene.new (1/5) 0 InterpType.kNone false)
        (4/5) 1 InterpType.kSmooth true)._selectedItem = 1 := by decide
    have hcvs : (addPoint (addPoint CurveScene.new (1/5) 0 InterpType.kNone false)
        (4/5) 1 InterpType.kSmooth true)._cvs
          = [⟨1/5, 0, InterpType.kNone⟩, ⟨4/5, 1, InterpType.kSmooth⟩] := by decide!
    rw [hsel, hcvs] at hg hc
    refine ⟨s', hs, ?_⟩
    rw [hc]
    simp at hg
    subst hg
    simp

/-- C11: each mutating edit emits `curveChanged` exactly once, as the last
signal of the edit, and the scene then shows the updated CV list together with
the curve rebuilt from it. This holds for creating a point by a left click on the
curve area, for Backspace/Delete with a CV selected, for a drag (button held) of
the selected CV, and for `selPosChanged`, `selValChanged` and `interpChanged`
with a CV selected. -/
theorem edits_emit_curveChanged_once (s : CurveScene) :
    (∀ x y : ℚ, ∃ s', mousePressEvent s ⟨x, y, Hit.background, true⟩ = some s'
        ∧ EmitsOnceAfterRebuild s s')
      ∧ (∀ key : Key, key = Key.Key_Backspace ∨ key = Key.Key_Delete →
          0 ≤ s._selectedItem → s._selectedItem < s._cvs.length →
          ∃ s', keyPressEvent s key = some s' ∧ EmitsOnceAfterRebuild s s')
      ∧ (∀ e : MouseEvent, s._lmb = true →
          0 ≤ s._selectedItem → s._selectedItem < s._cvs.length →
          ∃ s', mouseMoveEvent s e = some s' ∧ EmitsOnceAfterRebuild s s')
      ∧ (∀ p : ℚ, 0 ≤ s._selectedItem → s._selectedItem < s._cvs.length →
          ∃ s', selPosChanged s p = some s' ∧ EmitsOnceAfterRebuild s s')
      ∧ (∀ v : ℚ, 0 ≤ s._selectedItem → s._selectedItem < s._cvs.length →
          ∃ s', selValChanged s v = some s' ∧ EmitsOnceAfterRebuild s s')
      ∧ (∀ m : InterpType, 0 ≤ s._selectedItem → s._selectedItem < s._cvs.length →
          ∃ s', interpChanged s m = some s' ∧ EmitsOnceAfterRebuild s s') := by
  refine ⟨?_, ?_, ?_, ?_, ?_, ?_⟩
  · intro x y
    refine ⟨_, mousePressEvent_create s x y, ?_⟩
    refine emitsOnce_of_append s _ [] ?_ rfl
    cases hd : addPointSelectDefault <;>
      simp [emitCurveChanged, emit, addPoint, drawPoints, drawPoly, rebuildCurve]
  · intro key hk h0 h1
    rw [keyPressEvent_delete s key hk h0]
    exact ⟨_, removePoint_of_lt s _ h0 h1, emitsOnce_of_append s _ [] rfl rfl⟩
  · intro e hl h0 h1
    obtain ⟨cv, -, he⟩ := mouseMoveEvent_of_sel s e hl h0 h1
    exact ⟨_, he, emitsOnce_of_append s _ [_] rfl rfl⟩
  · intro p h0 h1
    obtain ⟨cv, -, he⟩ := selPosChanged_of_sel s p h0 h1
    exact ⟨_, he, emitsOnce_of_append s _ [] rfl rfl⟩
  · intro v h0 h1
    obtain ⟨cv, -, he⟩ := selValChanged_of_sel s v h0 h1
    exact ⟨_, he, emitsOnce_of_append s _ [] rfl rfl⟩
  · intro m h0 h1
    obtain ⟨cv, -, he⟩ := interpChanged_of_sel s m h0 h1
    exact ⟨_, he, emitsOnce_of_append s _ [] rfl rfl⟩

/-- C11 (witness): on the scene holding one selected CV, a creating click, the
Delete key, a drag with the button held and the three update slots each emit
`curveChanged` once after the rebuild. -/
theorem edits_emit_curveChanged_once_witness :
    (∃ s', mousePressEvent (addPoint CurveScene.new (1/2) (1/2) InterpType.kLinear true)
          ⟨100, 20, Hit.background, true⟩ = some s'
        ∧ EmitsOnceAfterRebuild (addPoint CurveScene.new (1/2) (1/2) InterpType.kLinear true) s')
      ∧ (∃ s', keyPressEvent (addPoint CurveScene.new (1/2) (1/2) InterpType.kLinear true)
          Key.Key_Delete = some s'
        ∧ EmitsOnceAfterRebuild (addPoint CurveScene.new (1/2) (1/2) InterpType.kLinear true) s')
      ∧ (∃ s', mouseMoveEvent
          { addPoint CurveScene.new (1/2) (1/2) InterpType.kLinear true with _lmb := true }
          ⟨456, 17, Hit.nothing, true⟩ = some s'
        ∧ EmitsOnceAfterRebuild
          { addPoint CurveScene.new (1/2) (1/2) InterpType.kLinear true with _lmb := true } s')
      ∧ (∃ s', selPosChanged (addPoint CurveScene.new (1/2) (1/2) InterpType.kLinear true) 3
          = some s'
        ∧ EmitsOnceAfterRebuild (addPoint CurveScene.new (1/2) (1/2) InterpType.kLinear true) s')
      ∧ (∃ s', selValChanged (addPoint CurveScene.new (1/2) (1/2) InterpType.kLinear true) 3
          = some s'
        ∧ EmitsOnceAfterRebuild (addPoint CurveScene.new (1/2) (1/2) InterpType.kLinear true) s')
      ∧ (∃ s', interpChanged (addPoint CurveScene.new (1/2) (1/2) InterpType.kLinear true)
          InterpType.kSmooth = some s'
        ∧ EmitsOnceAfterRebuild (addPoint CurveScene.new (1/2) (1/2) InterpType.kLinear true) s') :=
  ⟨(edits_emit_curveChanged_once _).1 100 20,
   (edits_emit_curveChanged_once _).2.1 Key.Key_Delete (Or.inr rfl) (by decide) (by decide),
   (edits_emit_curveChanged_once _).2.2.1 _ rfl (by decide) (by decide),
   (edits_emit_curveChanged_once _).2.2.2.1 3 (by decide) (by decide),
   (edits_emit_curveChanged_once _).2.2.2.2.1 3 (by decide) (by decide),
   (edits_emit_curveChanged_once _).2.2.2.2.2 InterpType.kSmooth (by decide) (by decide)⟩

/-- C12: after `addPoint`, after a `removePoint` that has an outcome, and after
a drag, `selPosChanged`, `selValChanged` or `interpChanged` with a CV selected,
the derived curve is the one built from the stored CV list of the resulting
scene; the curve built from a list holds exactly the CVs of the list, each once. -/
theorem edits_rebuild_curve (s : CurveScene) :
    (∀ (x y : ℚ) (interp : InterpType) (select : Bool), InSync (addPoint s x y interp select))
      ∧ (∀ (index : Int) (s' : CurveScene), removePoint s index = some s' → InSync s')
      ∧ (∀ (e : MouseEvent) (s' : CurveScene), s._lmb = true → 0 ≤ s._selectedItem →
          mouseMoveEvent s e = some s' → InSync s')
      ∧ (∀ (p : ℚ) (s' : CurveScene), 0 ≤ s._selectedItem →
          selPosChanged s p = some s' → InSync s')
      ∧ (∀ (v : ℚ) (s' : CurveScene), 0 ≤ s._selectedItem →
          selValChanged s v = some s' → InSync s')
      ∧ (∀ (m : InterpType) (s' : CurveScene), 0 ≤ s._selectedItem →
          interpChanged s m = some s' → InSync s')
      ∧ List.Perm (buildCurve s._cvs)._cvData s._cvs := by
  refine ⟨?_, ?_, ?_, ?_, ?_, ?_, ?_⟩
  · intro x y interp select
    unfold InSync
    rw [addPoint_curve, addPoint_cvs]
  · intro index s' hs
    obtain ⟨-, h0, h1⟩ := removePoint_cvs s s' index hs
    rw [removePoint_of_lt s index h0 h1] at hs
    injection hs with hs
    subst hs
    rfl
  · intro e s' hl h0 hs
    by_cases h1 : s._selectedItem < s._cvs.length
    · obtain ⟨cv, -, he⟩ := mouseMoveEvent_of_sel s e hl h0 h1
      rw [he] at hs
      injection hs with hs
      subst hs
      rfl
    · rw [mouseMoveEvent_of_ge s e hl h0 (by omega)] at hs
      exact Option.noConfusion hs
  · intro p s' h0 hs
    by_cases h1 : s._selectedItem < s._cvs.length
    · obtain ⟨cv, -, he⟩ := selPosChanged_of_sel s p h0 h1
      rw [he] at hs
      injection hs with hs
      subst hs
      rfl
    · rw [selPosChanged_of_ge s p h0 (by omega)] at hs
      exact Option.noConfusion hs
  · intro v s' h0 hs
    by_cases h1 : s._selectedItem < s._cvs.length
    · obtain ⟨cv, -, he⟩ := selValChanged_of_sel s v h0 h1
      rw [he] at hs
      injection hs with hs
      subst hs
      rfl
    · rw [selValChanged_of_ge s v h0 (by omega)] at hs
      exact Option.noConfusion hs
  · intro m s' h0 hs
    by_cases h1 : s._selectedItem < s._cvs.length
    · obtain ⟨cv, -, he⟩ := interpChanged_of_sel s m h0 h1
      rw [he] at hs
      injection hs with hs
      subst hs
      rfl
    · rw [interpChanged_of_ge s m h0 (by omega)] at hs
      exact Option.noConfusion hs
  · rw [buildCurve_cvData]
    exact List.perm_insertionSort _ _

/-- C12 (witness): a scene left stale by `removeAll` after two insertions is back
in sync after `addPoint`, and after `selPosChanged` once that point is selected. -/
theorem edits_rebuild_curve_witness :
    InSync (addPoint (removeAll (addPoint (addPoint CurveScene.new (1/5) 0 InterpType.kNone
        false) (4/5) 1 InterpType.kSmooth false)) (1/2) (1/2) InterpType.kLinear true)
      ∧ ∃ s', selPosChanged (addPoint (removeAll (addPoint (addPoint CurveScene.new (1/5) 0
            InterpType.kNone false) (4/5) 1 InterpType.kSmooth false)) (1/2) (1/2)
            InterpType.kLinear true) 3 = some s'
          ∧ InSync s' :=
  ⟨(edits_rebuild_curve _).1 (1/2) (1/2) InterpType.kLinear true,
   match h : selPosChanged (addPoint (removeAll (addPoint (addPoint CurveScene.new (1/5) 0
        InterpType.kNone false) (4/5) 1 InterpType.kSmooth false)) (1/2) (1/2)
        InterpType.kLinear true) 3 with
   | some s' => ⟨s', rfl, (edits_rebuild_curve _).2.2.2.1 3 s' (by decide) h⟩
   | none => absurd h (by decide!)⟩

/-- C13 (the code at the failing input): `removeAll` on the scene holding the
selected CV `(1/2, 1/2)` empties the CV list but leaves the derived curve built
from that CV, which evaluates to `1/2` where the curve built from no CVs
evaluates to `0`; the selection and the circle items are left as well. -/
theorem removeAll_leaves_curve_stale :
    (removeAll (addPoint CurveScene.new (1/2) (1/2) InterpType.kLinear true))._cvs = []
      ∧ (removeAll (addPoint CurveScene.new (1/2) (1/2) InterpType.kLinear true))._curve
          = buildCurve [⟨1/2, 1/2, InterpType.kLinear⟩]
      ∧ (removeAll (addPoint CurveScene.new (1/2) (1/2) InterpType.kLinear true))._curve
          ≠ buildCurve []
      ∧ (removeAll (addPoint CurveScene.new (1/2) (1/2) InterpType.kLinear true))._curve.getValue 0
          = 1/2
      ∧ (buildCurve []).getValue 0 = 0
      ∧ (removeAll (addPoint CurveScene.new (1/2) (1/2) InterpType.kLinear true))._selectedItem = 0
      ∧ (removeAll (addPoint CurveScene.new (1/2) (1/2) InterpType.kLinear true))._circleObjects
          = 1 := by
  refine ⟨rfl, by decide!, by decide!, by decide!, by decide!, by decide, by decide⟩

/-- C14: with a CV selected, applying `selPosChanged(p)` twice in a row succeeds
both times and the second application leaves the CV list, the selection and the
derived curve of the first; likewise `selValChanged(v)` and `interpChanged(m)`. -/
theorem updates_idempotent (s : CurveScene) (h0 : 0 ≤ s._selectedItem)
    (h1 : s._selectedItem < s._cvs.length) :
    (∀ p : ℚ, ∃ s1 s2, selPosChanged s p = some s1 ∧ selPosChanged s1 p = some s2
        ∧ s2._cvs = s1._cvs ∧ s2._selectedItem = s1._selectedItem ∧ s2._curve = s1._curve)
      ∧ (∀ v : ℚ, ∃ s1 s2, selValChanged s v = some s1 ∧ selValChanged s1 v = some s2
        ∧ s2._cvs = s1._cvs ∧ s2._selectedItem = s1._selectedItem ∧ s2._curve = s1._curve)
      ∧ (∀ m : InterpType, ∃ s1 s2, interpChanged s m = some s1 ∧ interpChanged s1 m = some s2
        ∧ s2._cvs = s1._cvs ∧ s2._selectedItem = s1._selectedItem ∧ s2._curve = s1._curve) := by
  have hlt : s._selectedItem.toNat < s._cvs.length := by omega
  refine ⟨?_, ?_, ?_⟩
  · intro p
    obtain ⟨cv, -, he⟩ := selPosChanged_of_sel s p h0 h1
    cases hs1 : selPosChanged s p with
    | none => rw [hs1] at he; exact Option.noConfusion he
    | some s1 =>
      rw [hs1] at he
      injection he with he
      have hsel : s1._selectedItem = s._selectedItem := by rw [he]
      have hcvs : s1._cvs = s._cvs.set s._selectedItem.toNat ⟨clamp p 0 1, cv._val, cv._interp⟩ := by rw [he]
      obtain ⟨cv1, hg1, he1⟩ := selPosChanged_of_sel s1 p (by rw [hsel]; exact h0)
        (by rw [hsel, hcvs, List.length_set]; exact h1)
      have hcv1 : cv1 = ⟨clamp p 0 1, cv._val, cv._interp⟩ := by
        rw [hsel, hcvs, List.getElem?_set_self hlt] at hg1
        exact (Option.some.inj hg1).symm
      have hset : s1._cvs.set s1._selectedItem.toNat
          ⟨clamp p 0 1, cv1._val, cv1._interp⟩ = s1._cvs := by
        apply set_same_of_getElem?
        rw [hg1, hcv1]
      refine ⟨s1, _, rfl, he1, ?_, rfl, ?_⟩
      · exact hset
      · show buildCurve _ = s1._curve
        rw [hset, he]
  · intro v
    obtain ⟨cv, -, he⟩ := selValChanged_of_sel s v h0 h1
    cases hs1 : selValChanged s v with
    | none => rw [hs1] at he; exact Option.noConfusion he
    | some s1 =>
      rw [hs1] at he
      injection he with he
      have hsel : s1._selectedItem = s._selectedItem := by rw [he]
      have hcvs : s1._cvs = s._cvs.set s._selectedItem.toNat ⟨cv._pos, clamp v 0 1, cv._interp⟩ := by rw [he]
      obtain ⟨cv1, hg1, he1⟩ := selValChanged_of_sel s1 v (by rw [hsel]; exact h0)
        (by rw [hsel, hcvs, List.length_set]; exact h1)
      have hcv1 : cv1 = ⟨cv._pos, clamp v 0 1, cv._interp⟩ := by
        rw [hsel, hcvs, List.getElem?_set_self hlt] at hg1
        exact (Option.some.inj hg1).symm
      have hset : s1._cvs.set s1._selectedItem.toNat
          ⟨cv1._pos, clamp v 0 1, cv1._interp⟩ = s1._cvs := by
        apply set_same_of_getElem?
        rw [hg1, hcv1]
      refine ⟨s1, _, rfl, he1, ?_, rfl, ?_⟩
      · exact hset
      · show buildCurve _ = s1._curve
        rw [hset, he]
  · intro m
    obtain ⟨cv, -, he⟩ := interpChanged_of_sel s m h0 h1
    cases hs1 : interpChanged s m with
    | none => rw [hs1] at he; exact Option.noConfusion he
    | some s1 =>
      rw [hs1] at he
      injection he with he
      have hsel : s1._selectedItem = s._selectedItem := by rw [he]
      have hcvs : s1._cvs = s._cvs.set s._selectedItem.toNat ⟨cv._pos, cv._val, m⟩ := by rw [he]
      obtain ⟨cv1, hg1, he1⟩ := interpChanged_of_sel s1 m (by rw [hsel]; exact h0)
        (by rw [hsel, hcvs, List.length_set]; exact h1)
      have hcv1 : cv1 = ⟨cv._pos, cv._val, m⟩ := by
        rw [hsel, hcvs, List.getElem?_set_self hlt] at hg1
        exact (Option.some.inj hg1).symm
      have hset : s1._cvs.set s1._selectedItem.toNat
          ⟨cv1._pos, cv1._val, m⟩ = s1._cvs := by
        apply set_same_of_getElem?
        rw [hg1, hcv1]
      refine ⟨s1, _, rfl, he1, ?_, rfl, ?_⟩
      · exact hset
      · show buildCurve _ = s1._curve
        rw [hset, he]

/-- C14 (witness): on the scene holding the selected CV `(1/2, 1/2, kLinear)`,
typing position 3 twice, value -2 twice or choosing `kSmooth` twice ends with
the CV list, selection and curve of doing it once. -/
theorem updates_idempotent_witness :
    (∃ s1 s2, selPosChanged (addPoint CurveScene.new (1/2) (1/2) InterpType.kLinear true) 3
          = some s1 ∧ selPosChanged s1 3 = some s2
        ∧ s2._cvs = s1._cvs ∧ s2._selectedItem = s1._selectedItem ∧ s2._curve = s1._curve)
      ∧ (∃ s1 s2, selValChanged (addPoint CurveScene.new (1/2) (1/2) InterpType.kLinear true) (-2)
          = some s1 ∧ selValChanged s1 (-2) = some s2
        ∧ s2._cvs = s1._cvs ∧ s2._selectedItem = s1._selectedItem ∧ s2._curve = s1._curve)
      ∧ (∃ s1 s2, interpChanged (addPoint CurveScene.new (1/2) (1/2) InterpType.kLinear true)
          InterpType.kSmooth = some s1 ∧ interpChanged s1 InterpType.kSmooth = some s2
        ∧ s2._cvs = s1._cvs ∧ s2._selectedItem = s1._selectedItem ∧ s2._curve = s1._curve) :=
  ⟨(updates_idempotent _ (by decide) (by decide)).1 3,
   (updates_idempotent _ (by decide) (by decide)).2.1 (-2),
   (updates_idempotent _ (by decide) (by decide)).2.2 InterpType.kSmooth⟩

/-- C15 (the code at the failing input): the freshly constructed scene and the
scene obtained by `addPoint(1/2, 1/2)` followed by `removeAll` store the same
(empty) CV list, yet their derived curves differ and evaluate differently at
`x = 0`: `0` for the first, `1/2` for the second; rebuilt, both would agree. -/
theorem equal_cvs_unequal_curves :
    CurveScene.new._cvs
        = (removeAll (addPoint CurveScene.new (1/2) (1/2) InterpType.kLinear false))._cvs
      ∧ CurveScene.new._curve
        ≠ (removeAll (addPoint CurveScene.new (1/2) (1/2) InterpType.kLinear false))._curve
      ∧ CurveScene.new._curve.getValue 0 = 0
      ∧ (removeAll (addPoint CurveScene.new (1/2) (1/2) InterpType.kLinear false))._curve.getValue 0
        = 1/2
      ∧ (rebuildCurve CurveScene.new)._curve
        = (rebuildCurve
            (removeAll (addPoint CurveScene.new (1/2) (1/2) InterpType.kLinear false)))._curve := by
  refine ⟨rfl, by decide!, by decide!, by decide!, rfl⟩

/-- C19: for `0 <= i < n`, `removePoint(i)` succeeds and the stored list becomes
the old one with the `i`-th CV erased: its length is `n - 1`, every index below
`i` keeps its CV, and every index `j >= i` holds the CV formerly at `j + 1`. -/
theorem removePoint_erases_exactly (s : CurveScene) (i : Int) (h0 : 0 ≤ i)
    (h1 : i < s._cvs.length) :
    ∃ s', removePoint s i = some s'
      ∧ s'._cvs = s._cvs.eraseIdx i.toNat
      ∧ s'._cvs.length + 1 = s._cvs.length
      ∧ (∀ j : Nat, j < i.toNat → s'._cvs[j]? = s._cvs[j]?)
      ∧ (∀ j : Nat, i.toNat ≤ j → s'._cvs[j]? = s._cvs[j + 1]?) := by
  have hlt : i.toNat < s._cvs.length := by omega
  refine ⟨_, removePoint_of_lt s i h0 h1, rfl, ?_, ?_, ?_⟩
  · show (s._cvs.eraseIdx i.toNat).length + 1 = s._cvs.length
    rw [List.length_eraseIdx, if_pos hlt]
    omega
  · intro j hj
    exact List.getElem?_eraseIdx_of_lt _ _ _ hj
  · intro j hj
    exact List.getElem?_eraseIdx_of_ge _ _ _ hj

/-- C19 (witness): removing index 1 of the three CVs at positions 1/5, 1/2, 4/5
leaves the CVs at 1/5 and 4/5, in that order. -/
theorem removePoint_erases_exactly_witness :
    ∃ s', removePoint
          (addPoint (addPoint (addPoint CurveScene.new (1/5) 0 InterpType.kNone false)
            (1/2) 1 InterpType.kLinear false) (4/5) 0 InterpType.kSmooth false) 1 = some s'
      ∧ s'._cvs = [⟨1/5, 0, InterpType.kNone⟩, ⟨4/5, 0, InterpType.kSmooth⟩] := by
  obtain ⟨s', hs, hc, -, -, -⟩ := removePoint_erases_exactly
    (addPoint (addPoint (addPoint CurveScene.new (1/5) 0 InterpType.kNone false)
      (1/2) 1 InterpType.kLinear false) (4/5) 0 InterpType.kSmooth false) 1
    (by decide) (by decide)
  refine ⟨s', hs, ?_⟩
  rw [hc]
  decide!

/-- C20: a control constructed on an editable loads its CVs with one `addPoint`
each, in order; when the `curveChanged` slot then takes the snapshot, the
editable holds the loaded sequence in the same order with every position and
value clamped to `[0,1]`, which is the loaded sequence itself when all its
positions and values already lie in `[0,1]`. -/
theorem snapshot_round_trip (editable : CurveEditable) :
    (CurveControl.curveChanged (CurveControl.new editable))._curveEditable.cvs
        = editable.cvs.map clampCV
      ∧ (CVsInRange editable.cvs →
          (CurveControl.curveChanged (CurveControl.new editable))._curveEditable = editable) := by
  have h : (CurveControl.curveChanged (CurveControl.new editable))._curveEditable.cvs
      = editable.cvs.map clampCV := by
    show (editable.cvs.foldl _ ExprCurve.new)._scene._cvs = _
    rw [foldl_widget_addPoint_cvs]
    simp [ExprCurve.new, new_cvs]
  refine ⟨h, ?_⟩
  intro hr
  have hm : editable.cvs.map clampCV = editable.cvs := by
    conv_rhs => rw [← List.map_id editable.cvs]
    exact List.map_congr_left (fun cv hcv => clampCV_of_inRange cv (hr cv hcv))
  obtain ⟨cvs⟩ := editable
  show CurveEditable.mk _ = CurveEditable.mk cvs
  congr 1
  exact h.trans hm

/-- C20 (witness): the in-range sequence `(4/5, 1), (1/5, 0)` comes back
unchanged and in the same order, while `(3, -1), (1/5, 2)` comes back as
`(1, 0), (1/5, 1)`. -/
theorem snapshot_round_trip_witness :
    (CurveControl.curveChanged (CurveControl.new
        ⟨[⟨4/5, 1, InterpType.kSmooth⟩, ⟨1/5, 0, InterpType.kNone⟩]⟩))._curveEditable
        = ⟨[⟨4/5, 1, InterpType.kSmooth⟩, ⟨1/5, 0, InterpType.kNone⟩]⟩
      ∧ (CurveControl.curveChanged (CurveControl.new
        ⟨[⟨3, -1, InterpType.kSmooth⟩, ⟨1/5, 2, InterpType.kNone⟩]⟩))._curveEditable.cvs
        = [⟨1, 0, InterpType.kSmooth⟩, ⟨1/5, 1, InterpType.kNone⟩] := by
  refine ⟨(snapshot_round_trip _).2 (by decide!), ?_⟩
  rw [(snapshot_round_trip _).1]
  decide!

/-- C16 (counterexample): with the two CVs `(1/2, 0)` and `(1/2, 1)` stored at
one position, evaluating at the first CV's own position `1/2` returns `1`, not
its value `0`. -/
theorem getValue_shared_position_counterexample :
    (⟨1/2, 0, InterpType.kLinear⟩ : CV)
        ∈ [(⟨1/2, 0, InterpType.kLinear⟩ : CV), ⟨1/2, 1, InterpType.kLinear⟩]
      ∧ (buildCurve [⟨1/2, 0, InterpType.kLinear⟩, ⟨1/2, 1, InterpType.kLinear⟩]).getValue (1/2)
          = 1
      ∧ (buildCurve [⟨1/2, 0, InterpType.kLinear⟩, ⟨1/2, 1, InterpType.kLinear⟩]).getValue (1/2)
          ≠ (⟨1/2, 0, InterpType.kLinear⟩ : CV)._val := by
  refine ⟨by simp, by decide!, by decide!⟩

/-- C16 (amended): for every CV list, whatever the interpolation modes,
evaluating the curve built from it at the position of a CV returns that CV's
value, provided every CV stored at that position carries the same value (so in
particular when no other CV shares the position). -/
theorem getValue_at_own_position (cvs : List CV) (cv : CV) (hmem : cv ∈ cvs)
    (hval : ∀ cv' ∈ cvs, cv'._pos = cv._pos → cv'._val = cv._val) :
    (buildCurve cvs).getValue cv._pos = cv._val := by
  obtain ⟨k, hk, hpos, he⟩ := getValue_at_knot (buildCurve cvs) cv (sorted_buildCurve cvs)
    ((mem_buildCurve cvs cv).mpr hmem)
  rw [he]
  exact hval k ((mem_buildCurve cvs k).mp hk) hpos

/-- C16 (witness): in the list `(1/5, 5, kNone), (4/5, 9, kNone), (1/2, 7, kSpline)`
the curve takes the value 9 at position 4/5, the right end of a `kNone` segment. -/
theorem getValue_at_own_position_witness :
    (buildCurve [⟨1/5, 5, InterpType.kNone⟩, ⟨4/5, 9, InterpType.kNone⟩,
        ⟨1/2, 7, InterpType.kSpline⟩]).getValue (4/5) = 9 :=
  getValue_at_own_position
    [⟨1/5, 5, InterpType.kNone⟩, ⟨4/5, 9, InterpType.kNone⟩, ⟨1/2, 7, InterpType.kSpline⟩]
    ⟨4/5, 9, InterpType.kNone⟩ (by simp) (by decide!)

/-- C17: in the curve built from any CV list, let `a` and `b` be consecutive in
sorted order with the segment between them using `kMonotoneSpline` (the tag of its
right CV `b`); then for every `x` with `a._pos <= x < b._pos` the evaluated value
lies between `min(a._val, b._val)` and `max(a._val, b._val)`. -/
theorem monotoneSpline_no_overshoot (cvs : List CV) (i : Nat) (a b : CV) (x : ℚ)
    (ha : (buildCurve cvs)._cvData[i]? = some a)
    (hb : (buildCurve cvs)._cvData[i + 1]? = some b)
    (hmode : b._interp = InterpType.kMonotoneSpline)
    (hax : a._pos ≤ x) (hxb : x < b._pos) :
    min a._val b._val ≤ (buildCurve cvs).getValue x
      ∧ (buildCurve cvs).getValue x ≤ max a._val b._val := by
  have hs := sorted_buildCurve cvs
  have hle : ∀ (m : Nat) (c : CV), m ≤ i → (buildCurve cvs)._cvData[m]? = some c → c._pos ≤ x :=
    fun m c hm hc => le_trans (pairwise_pos_le _ hs m i c a hm hc ha) hax
  have hsec : Curve.secantSlope (buildCurve cvs)._cvData i
      = some ((b._val - a._val) / (b._pos - a._pos)) := by
    simp [Curve.secantSlope, ha, hb]
  have hval : (buildCurve cvs).getValue x
      = Curve.segment (buildCurve cvs)._cvData i a b x := by
    unfold Curve.getValue
    cases hd : (buildCurve cvs)._cvData with
    | nil => rw [hd] at ha; simp at ha
    | cons k0 rest =>
      have h0 : k0._pos ≤ x := hle 0 k0 (Nat.zero_le _) (by rw [hd]; simp)
      simp only [if_neg (not_lt.mpr h0)]
      rw [hd] at ha hb hle
      rw [evalFrom_segment _ x _ 0 i a b ha hb hle hxb, Nat.zero_add]
  rw [hval]
  unfold Curve.segment
  rw [hmode]
  exact hermite_between _ _ _ _ _ _ x hax hxb
    (monotoneSlope_right_between _ i _ hsec) (monotoneSlope_left_between _ i _ hsec)

/-- C17 (witness): for the CVs `(0,0)`, `(1/2,1)`, `(1,0)`, all `kMonotoneSpline`
and stored out of order, the value at `x = 1/4` lies in `[0, 1]`. -/
theorem monotoneSpline_no_overshoot_witness :
    min (0 : ℚ) 1 ≤ (buildCurve [⟨1/2, 1, InterpType.kMonotoneSpline⟩,
          ⟨0, 0, InterpType.kMonotoneSpline⟩, ⟨1, 0, InterpType.kMonotoneSpline⟩]).getValue (1/4)
      ∧ (buildCurve [⟨1/2, 1, InterpType.kMonotoneSpline⟩,
          ⟨0, 0, InterpType.kMonotoneSpline⟩, ⟨1, 0, InterpType.kMonotoneSpline⟩]).getValue (1/4)
        ≤ max (0 : ℚ) 1 :=
  monotoneSpline_no_overshoot
    [⟨1/2, 1, InterpType.kMonotoneSpline⟩, ⟨0, 0, InterpType.kMonotoneSpline⟩,
      ⟨1, 0, InterpType.kMonotoneSpline⟩]
    0 ⟨0, 0, InterpType.kMonotoneSpline⟩ ⟨1/2, 1, InterpType.kMonotoneSpline⟩ (1/4)
    (by decide!) (by decide!) rfl (by norm_num) (by norm_num)

/-- C18: the curve built from no CVs (also the curve of the freshly constructed
scene) evaluates to `0` everywhere; the curve built from one CV evaluates to
that CV's value everywhere; and for any CV list, before the position of the first
sorted CV the curve has the first sorted CV's value, and from the position of the
last sorted CV on it has the last sorted CV's value, where the first (last)
sorted CV is a stored CV of smallest (largest) position. -/
theorem flat_extrapolation (cvs : List CV) (x : ℚ) :
    (buildCurve []).getValue x = 0
      ∧ CurveScene.new._curve.getValue x = 0
      ∧ (∀ cv : CV, (buildCurve [cv]).getValue x = cv._val)
      ∧ (∀ first : CV, (buildCurve cvs)._cvData.head? = some first →
          (first ∈ cvs ∧ ∀ cv ∈ cvs, first._pos ≤ cv._pos)
            ∧ (x < first._pos → (buildCurve cvs).getValue x = first._val))
      ∧ (∀ last : CV, (buildCurve cvs)._cvData.getLast? = some last →
          (last ∈ cvs ∧ ∀ cv ∈ cvs, cv._pos ≤ last._pos)
            ∧ (last._pos ≤ x → (buildCurve cvs).getValue x = last._val)) := by
  have hnil : (buildCurve []).getValue x = 0 := by
    simp [Curve.getValue, buildCurve_cvData]
  refine ⟨hnil, hnil, ?_, ?_, ?_⟩
  · intro cv
    have hd : (buildCurve [cv])._cvData = [cv] := by simp [buildCurve_cvData]
    unfold Curve.getValue
    rw [hd]
    simp [Curve.evalFrom]
  · intro first hf
    refine ⟨⟨(mem_buildCurve cvs first).mp (List.mem_of_mem_head? hf), ?_⟩,
      getValue_before_first _ first x hf⟩
    intro cv hcv
    exact sorted_head_min _ (sorted_buildCurve cvs) first hf cv ((mem_buildCurve cvs cv).mpr hcv)
  · intro last hl
    refine ⟨⟨(mem_buildCurve cvs last).mp (List.mem_of_getLast?_eq_some hl), ?_⟩,
      getValue_from_last _ last x (sorted_buildCurve cvs) hl⟩
    intro cv hcv
    exact sorted_last_max _ (sorted_buildCurve cvs) last hl cv ((mem_buildCurve cvs cv).mpr hcv)

/-- C18 (witness): for the CVs `(1/5, 5)` and `(4/5, 9)` the curve is `5` at
`x = 1/10` and `9` at `x = 2`. -/
theorem flat_extrapolation_witness :
    (buildCurve [⟨4/5, 9, InterpType.kNone⟩, ⟨1/5, 5, InterpType.kNone⟩]).getValue (1/10) = 5
      ∧ (buildCurve [⟨4/5, 9, InterpType.kNone⟩, ⟨1/5, 5, InterpType.kNone⟩]).getValue 2 = 9 :=
  ⟨((flat_extrapolation [⟨4/5, 9, InterpType.kNone⟩, ⟨1/5, 5, InterpType.kNone⟩] (1/10)).2.2.2.1
      ⟨1/5, 5, InterpType.kNone⟩ (by decide!)).2 (by norm_num),
   ((flat_extrapolation [⟨4/5, 9, InterpType.kNone⟩, ⟨1/5, 5, InterpType.kNone⟩] 2).2.2.2.2
      ⟨4/5, 9, InterpType.kNone⟩ (by decide!)).2 (by norm_num)⟩

/-- C21 (the code at the failing input): for the control loaded with the CVs
`(1/5, 0)` then `(4/5, 1)`, the `curveChanged` signal shows the scene's list in
stored order and the slot writes that order to the editable, not the reversed
list. -/
theorem curveChanged_keeps_stored_order :
    (CurveControl.curveChanged (CurveControl.new
        ⟨[⟨1/5, 0, InterpType.kNone⟩, ⟨4/5, 1, InterpType.kLinear⟩]⟩))._curveEditable.cvs
        = [⟨1/5, 0, InterpType.kNone⟩, ⟨4/5, 1, InterpType.kLinear⟩]
      ∧ (CurveControl.curveChanged (CurveControl.new
        ⟨[⟨1/5, 0, InterpType.kNone⟩, ⟨4/5, 1, InterpType.kLinear⟩]⟩))._curveEditable.cvs
        ≠ ([⟨1/5, 0, InterpType.kNone⟩, ⟨4/5, 1, InterpType.kLinear⟩] : List CV).reverse
      ∧ ((emitCurveChanged (CurveControl.new
          ⟨[⟨1/5, 0, InterpType.kNone⟩, ⟨4/5, 1, InterpType.kLinear⟩]⟩)._curve._scene).emitted.getLast?).map
          (fun em => em.cvs)
        = some [⟨1/5, 0, InterpType.kNone⟩, ⟨4/5, 1, InterpType.kLinear⟩] := by
  refine ⟨by decide!, by decide!, by decide!⟩

/-- C22 (the code at the failing input): from the fresh scene, `addPoint` with
`select` true followed by `removeAll` reaches a scene with no CVs and selected
index 0, on which `selPosChanged` reads `_cvs[0]` out of range; likewise, with
two CVs and the second selected, accepting the detail dialog with a single CV
leaves selected index 1 on a one-element list. -/
theorem removeAll_breaks_selection :
    (∃ s', run CurveScene.new
          [Op.addPoint (1/2) (1/2) InterpType.kLinear true, Op.removeAll] = some s'
        ∧ s'._selectedItem = 0 ∧ s'._cvs.length = 0 ∧ ¬ SelValid s'
        ∧ selPosChanged s' (1/2) = none)
      ∧ ((ExprCurve.openDetail
            ⟨addPoint (addPoint CurveScene.new (1/5) 0 InterpType.kNone false)
              (4/5) 1 InterpType.kLinear true⟩
            (some [⟨1/2, 1/2, InterpType.kLinear⟩]) none)._scene._selectedItem = 1
        ∧ (ExprCurve.openDetail
            ⟨addPoint (addPoint CurveScene.new (1/5) 0 InterpType.kNone false)
              (4/5) 1 InterpType.kLinear true⟩
            (some [⟨1/2, 1/2, InterpType.kLinear⟩]) none)._scene._cvs.length = 1
        ∧ ¬ SelValid (ExprCurve.openDetail
            ⟨addPoint (addPoint CurveScene.new (1/5) 0 InterpType.kNone false)
              (4/5) 1 InterpType.kLinear true⟩
            (some [⟨1/2, 1/2, InterpType.kLinear⟩]) none)._scene) := by
  refine ⟨⟨removeAll (addPoint CurveScene.new (1/2) (1/2) InterpType.kLinear true), rfl,
    by decide, by decide, by decide, ?_⟩, by decide, by decide, by decide⟩
  exact selPosChanged_of_ge _ _ (by decide) (by decide)

/-- C23: whenever `interpChanged(mode)` has an outcome, the scene's `_interp` is
`mode`; it has one both with nothing selected (then nothing else changes) and
with a CV selected. A point created by a left click on the curve area gets the
mode of the lower-bound CV with the `kMonotoneSpline` fallback, and the created
CV is the same whatever mode was recorded in `_interp`. -/
theorem interpChanged_records_mode (s : CurveScene) (mode : InterpType) :
    (∀ s', interpChanged s mode = some s' → s'._interp = mode)
      ∧ (s._selectedItem < 0 → interpChanged s mode = some { s with _interp := mode })
      ∧ (0 ≤ s._selectedItem → s._selectedItem < s._cvs.length →
          ∃ s', interpChanged s mode = some s' ∧ s'._interp = mode)
      ∧ (∀ x y : ℚ, ∃ s1 s2,
          mousePressEvent s ⟨x, y, Hit.background, true⟩ = some s1
          ∧ mousePressEvent { s with _interp := mode } ⟨x, y, Hit.background, true⟩ = some s2
          ∧ s1._cvs = s._cvs ++ [⟨clamp (x / s._width) 0 1, clamp (y / s._height) 0 1,
              if s._curve.lowerBoundInterp (clamp (x / s._width) 0 1) = InterpType.kNone
                then InterpType.kMonotoneSpline
                else s._curve.lowerBoundInterp (clamp (x / s._width) 0 1)⟩]
          ∧ s2._cvs = s1._cvs) := by
  refine ⟨?_, interpChanged_of_neg s mode, ?_, ?_⟩
  · intro s' hs
    by_cases h0 : 0 ≤ s._selectedItem
    · by_cases h1 : s._selectedItem < s._cvs.length
      · obtain ⟨cv, -, he⟩ := interpChanged_of_sel s mode h0 h1
        rw [he] at hs
        injection hs with hs
        subst hs
        rfl
      · rw [interpChanged_of_ge s mode h0 (by omega)] at hs
        exact Option.noConfusion hs
    · rw [interpChanged_of_neg s mode (by omega)] at hs
      injection hs with hs
      subst hs
      rfl
  · intro h0 h1
    obtain ⟨cv, -, he⟩ := interpChanged_of_sel s mode h0 h1
    exact ⟨_, he, rfl⟩
  · intro x y
    refine ⟨_, _, mousePressEvent_create s x y, mousePressEvent_create _ x y, ?_, ?_⟩
    · show (addPoint _ _ _ _ _)._cvs = _
      rw [addPoint_cvs]
    · show (addPoint _ _ _ _ _)._cvs = (addPoint _ _ _ _ _)._cvs
      rw [addPoint_cvs, addPoint_cvs]

/-- C23 (witness): on the fresh scene `interpChanged(kLinear)` records `kLinear`
although nothing is selected, and a click then still creates a CV of mode
`kMonotoneSpline`. -/
theorem interpChanged_records_mode_witness :
    interpChanged CurveScene.new InterpType.kLinear
        = some { CurveScene.new with _interp := InterpType.kLinear }
      ∧ ∃ s2, mousePressEvent { CurveScene.new with _interp := InterpType.kLinear }
            ⟨100, 20, Hit.background, true⟩ = some s2
          ∧ s2._cvs = [⟨25/76, 10/17, InterpType.kMonotoneSpline⟩] := by
  refine ⟨(interpChanged_records_mode CurveScene.new InterpType.kLinear).2.1 (by decide), ?_⟩
  obtain ⟨s1, s2, -, h2, hc1, hc2⟩ :=
    (interpChanged_records_mode CurveScene.new InterpType.kLinear).2.2.2 100 20
  refine ⟨s2, h2, ?_⟩
  rw [hc2, hc1]
  decide!

/-- C24: a mouse move returns the scene unchanged (CV list, derived curve,
selection and emission log) whenever the button flag is off or nothing is
selected; in a scene reached from the fresh one the button flag tells whether a
press has occurred since the last release; and after a release, following any
operations that contain no press, a move returns the scene unchanged. -/
theorem mouseMove_gated (s : CurveScene) (e : MouseEvent) :
    (s._lmb = false ∨ s._selectedItem < 0 → mouseMoveEvent s e = some s)
      ∧ (∀ (ops : List Op) (s' : CurveScene), run CurveScene.new ops = some s' →
          s'._lmb = pressedAfter false ops)
      ∧ (∀ (ops : List Op) (s' : CurveScene), (∀ op ∈ ops, op.isPress = false) →
          run (mouseReleaseEvent s) ops = some s' → mouseMoveEvent s' e = some s') := by
  refine ⟨?_, ?_, ?_⟩
  · rintro (h | h)
    · exact mouseMoveEvent_of_not_lmb s e h
    · exact mouseMoveEvent_of_neg s e h
  · intro ops s' hs
    exact run_pressed ops CurveScene.new s' hs
  · intro ops s' hno hs
    apply mouseMoveEvent_of_not_lmb
    rw [run_pressed ops _ s' hs]
    exact pressedAfter_false_of_no_press ops hno

/-- C24 (witness): with a CV selected, a move before any press changes nothing;
after press and release, a typed-in position and a first move, a second move
still changes nothing. -/
theorem mouseMove_gated_witness :
    mouseMoveEvent (addPoint CurveScene.new (1/2) (1/2) InterpType.kLinear true)
        ⟨456, 17, Hit.nothing, true⟩
        = some (addPoint CurveScene.new (1/2) (1/2) InterpType.kLinear true)
      ∧ ∃ s', run (mouseReleaseEvent
            { addPoint CurveScene.new (1/2) (1/2) InterpType.kLinear true with _lmb := true })
            [Op.selPosChanged (1/4), Op.mouseMoveEvent ⟨456, 17, Hit.nothing, true⟩] = some s'
          ∧ mouseMoveEvent s' ⟨10, 3, Hit.nothing, true⟩ = some s' :=
  ⟨(mouseMove_gated _ _).1 (Or.inl (by decide)),
   match h : run (mouseReleaseEvent
        { addPoint CurveScene.new (1/2) (1/2) InterpType.kLinear true with _lmb := true })
        [Op.selPosChanged (1/4), Op.mouseMoveEvent ⟨456, 17, Hit.nothing, true⟩] with
   | some s' => ⟨s', rfl, (mouseMove_gated
        { addPoint CurveScene.new (1/2) (1/2) InterpType.kLinear true with _lmb := true }
        ⟨10, 3, Hit.nothing, true⟩).2.2 _ s' (by decide) h⟩
   | none => absurd h (by decide!)⟩

end KSeExpr
